import Mathlib

/-!
# Verification of the `EventCompressor` engine
# (src/gum/observers/keyboard_compressor.py)

A shallow embedding of the event-compression core.  Timestamps,
coordinates and scroll deltas are modelled as rationals (`ℚ`); Python's
`round(x, 5)` is modelled exactly as rounding to a multiple of `1/10^5`
with ties going to the even multiple (`round5` below).  Raw input events
are records with optional payload fields; a Python `event['f']` access on
a missing field (a `KeyError`) is modelled by `Except Unit`, the error
case.  The Python `dict` of pending presses is modelled as an
association list in insertion order: a new binding is appended at the
end, `pop` removes the (unique) binding of its key, mirroring CPython's
insertion-ordered dictionaries.  The dictionary keys built with
f-strings (`keyboard_{key}`, `mouse_{button}_{x}_{y}`) are modelled by
the structured type `PendKey` carrying the same data: distinct
`(button, x, y)` triples always give distinct f-string keys, because the
numeric segments of the rendered string contain no underscore, so the
last two underscore-separated tokens of the key determine `x` and `y`
and the remainder determines `button`.
-/

attribute [local semireducible] Rat.mul Rat.add Rat.sub Rat.inv Rat.ofScientific

deriving instance DecidableEq for Except

/-- Python `round(q * 10^5) / 10^5`-style helper: round a rational to the
nearest integer, ties to the even integer (banker's rounding, as Python's
built-in `round` behaves on exact halves). -/
def roundHalfEven (q : ℚ) : ℤ :=
  let n := q.floor
  let r := q - (n : ℚ)
  if r < 1/2 then n
  else if 1/2 < r then n + 1
  else if n % 2 = 0 then n else n + 1

/-- Python `round(x, 5)`: round to 5 decimal places, ties to even. -/
def round5 (q : ℚ) : ℚ := (roundHalfEven (q * 100000) : ℚ) / 100000

/-! ## Configuration thresholds (keyboard_compressor.py lines 3-7) -/

/-- Max time between key press and release for a `key_click` (0.7 s). -/
def KEY_CLICK_MAX_DELTA : ℚ := 7/10

/-- Max time between mouse press and release for a `mouse_click` (0.7 s). -/
def MOUSE_CLICK_MAX_DELTA : ℚ := 7/10

/-- Max time between character key_clicks to form a `typed_string` (1.0 s). -/
def TYPING_MAX_INTERKEY_DELTA : ℚ := 1

/-- Max time between mouse moves/scrolls to be condensed (0.5 s). -/
def MOUSE_SEQUENCE_MAX_DELTA : ℚ := 1/2

/-! ## Helper functions (keyboard_compressor.py lines 10-22) -/

/-- `is_char_key`: checks if a key representation is a printable character
or space.  Empty string is falsy; `Key.*` names count only for
`Key.space`; anything else is assumed printable. -/
def is_char_key (key_repr : String) : Bool :=
  if key_repr = "" then false
  else if "Key.".data.isPrefixOf key_repr.data then key_repr = "Key.space"
  else true

/-- `to_char`: converts `Key.space` to a blank for typed strings. -/
def to_char (key_repr : String) : String :=
  if key_repr = "Key.space" then " " else key_repr

/-! ## Data model -/

/-- A raw input event (one JSON object of the input stream).  `ts`,
`device` and `type` are the discriminators every event carries; the
payload fields are optional, mirroring dictionary fields that may be
absent (accessing an absent one raises in Python, `Except.error` here). -/
structure RawEvent where
  ts : ℚ
  device : String
  type : String
  key : Option String := none
  x : Option ℚ := none
  y : Option ℚ := none
  button : Option String := none
  pressed : Option Bool := none
  dx : Option ℚ := none
  dy : Option ℚ := none
deriving DecidableEq

/-- One element of `typed_char_buffer`:
`{'char': char, 'ts': ts, 'duration': dur}` (line 30). -/
structure TypedChar where
  char : String
  ts : ℚ
  duration : ℚ
deriving DecidableEq

/-- A pending-press dictionary key.  `kb key` stands for the f-string
`keyboard_{key}`; `ms button x y` stands for `mouse_{button}_{x}_{y}`
(see the header comment for why this is faithful). -/
inductive PendKey
  | kb (key : String)
  | ms (button : String) (x y : ℚ)
deriving DecidableEq

/-- One output record, as written by `_write_event`: either a raw
pass-through of an input event, or one of the five classified records
with exactly the fields the source writes. -/
inductive OutRec
  | raw (e : RawEvent)
  | keyClick (ts : ℚ) (key : String) (duration : ℚ)
  | typedString (ts : ℚ) (string : String) (duration : ℚ) (numChars : ℕ)
  | mouseClick (ts : ℚ) (x y : ℚ) (button : String) (duration : ℚ)
  | condensedMove (ts startX startY endX endY duration : ℚ) (numMoves : ℕ)
  | condensedScroll (ts totalDx totalDy duration : ℚ) (numScrolls : ℕ)
deriving DecidableEq

/-- The mutable state of an `EventCompressor` (lines 27-37). -/
structure CState where
  pending : List (PendKey × RawEvent)
  typedCharBuffer : List TypedChar
  lastTypedCharTs : ℚ
  mouseMoveBuffer : List RawEvent
  lastMouseMoveTs : ℚ
  mouseScrollBuffer : List RawEvent
  lastMouseScrollTs : ℚ
deriving DecidableEq

/-- Fresh compressor state (`__init__`). -/
def initState : CState :=
  { pending := [], typedCharBuffer := [], lastTypedCharTs := 0,
    mouseMoveBuffer := [], lastMouseMoveTs := 0,
    mouseScrollBuffer := [], lastMouseScrollTs := 0 }

/-- `pending_key_id in self.pending_events` + access: first binding of the
key in the association list (keys are unique in every reachable state). -/
def lookupPend : List (PendKey × RawEvent) → PendKey → Option RawEvent
  | [], _ => none
  | kv :: rest, k => if kv.1 = k then some kv.2 else lookupPend rest k

/-- `self.pending_events.pop(id)`: drop the first binding of the key. -/
def erasePend : List (PendKey × RawEvent) → PendKey → List (PendKey × RawEvent)
  | [], _ => []
  | kv :: rest, k => if kv.1 = k then rest else kv :: erasePend rest k

/-- Sum a list of optional rationals; a missing element is a `KeyError`
(`sum(s['dx'] for s in buffer)` over events that may lack `dx`). -/
def sumOpt : List (Option ℚ) → Except Unit ℚ
  | [] => .ok 0
  | none :: _ => .error ()
  | some v :: rest =>
    match sumOpt rest with
    | .error u => .error u
    | .ok r => .ok (v + r)

/-! ## Buffer flushes (lines 42-112) -/

/-- `_flush_typed_char_buffer` (lines 42-63).  Emits one `typed_string`
record and clears the buffer; no-op on an empty buffer. -/
def flushTypedCharBuffer (s : CState) : CState × List OutRec :=
  match s.typedCharBuffer with
  | [] => (s, [])
  | first :: rest =>
    let last := rest.getLastD first
    let combined := String.join ((first :: rest).map (fun item => item.char))
    let endTs := last.ts + last.duration
    ({ s with typedCharBuffer := [], lastTypedCharTs := 0 },
     [.typedString first.ts combined (round5 (endTs - first.ts)) combined.length])

/-- `_flush_mouse_move_buffer` (lines 65-84).  Reads `x`/`y` of the first
and last buffered move (a missing field raises). -/
def flushMouseMoveBuffer (s : CState) : Except Unit (CState × List OutRec) :=
  match s.mouseMoveBuffer with
  | [] => .ok (s, [])
  | first :: rest =>
    let last := rest.getLastD first
    match first.x, first.y, last.x, last.y with
    | some fx, some fy, some lx, some ly =>
      .ok ({ s with mouseMoveBuffer := [], lastMouseMoveTs := 0 },
        [.condensedMove first.ts fx fy lx ly (round5 (last.ts - first.ts))
          (first :: rest).length])
    | _, _, _, _ => .error ()

/-- `_flush_mouse_scroll_buffer` (lines 86-112).  Sums `dx`/`dy` over the
whole buffer (a missing field raises). -/
def flushMouseScrollBuffer (s : CState) : Except Unit (CState × List OutRec) :=
  match s.mouseScrollBuffer with
  | [] => .ok (s, [])
  | first :: rest =>
    let last := rest.getLastD first
    match sumOpt ((first :: rest).map (fun ev => ev.dx)),
          sumOpt ((first :: rest).map (fun ev => ev.dy)) with
    | .ok tdx, .ok tdy =>
      .ok ({ s with mouseScrollBuffer := [], lastMouseScrollTs := 0 },
        [.condensedScroll first.ts tdx tdy (round5 (last.ts - first.ts))
          (first :: rest).length])
    | _, _ => .error ()

/-- `_flush_all_buffers(current_ts)` (lines 114-121): flush each
non-empty buffer whose last timestamp is too far from `current_ts`. -/
def flushAllBuffers (s : CState) (currentTs : ℚ) :
    Except Unit (CState × List OutRec) :=
  let (s1, o1) :=
    if s.typedCharBuffer ≠ [] ∧
        currentTs - s.lastTypedCharTs > TYPING_MAX_INTERKEY_DELTA then
      flushTypedCharBuffer s
    else (s, [])
  match (if s1.mouseMoveBuffer ≠ [] ∧
      currentTs - s1.lastMouseMoveTs > MOUSE_SEQUENCE_MAX_DELTA then
      flushMouseMoveBuffer s1 else .ok (s1, [])) with
  | .error u => .error u
  | .ok (s2, o2) =>
    match (if s2.mouseScrollBuffer ≠ [] ∧
        currentTs - s2.lastMouseScrollTs > MOUSE_SEQUENCE_MAX_DELTA then
        flushMouseScrollBuffer s2 else .ok (s2, [])) with
    | .error u => .error u
    | .ok (s3, o3) => .ok (s3, o1 ++ o2 ++ o3)

/-- The type-change flushes at the top of `process_event` (lines 128-138)
followed by the timeout flush `_flush_all_buffers(ts)`. -/
def entryFlush (s : CState) (e : RawEvent) :
    Except Unit (CState × List OutRec) :=
  let (s1, o1) :=
    if e.device ≠ "keyboard" ∨ is_char_key (e.key.getD "") = false then
      flushTypedCharBuffer s
    else (s, [])
  match (if e.device ≠ "mouse" ∨ e.type ≠ "move" then
      flushMouseMoveBuffer s1 else .ok (s1, [])) with
  | .error u => .error u
  | .ok (s2, o2) =>
    match (if e.device ≠ "mouse" ∨ e.type ≠ "scroll" then
        flushMouseScrollBuffer s2 else .ok (s2, [])) with
    | .error u => .error u
    | .ok (s3, o3) =>
      match flushAllBuffers s3 e.ts with
      | .error u => .error u
      | .ok (s4, o4) => .ok (s4, o1 ++ o2 ++ o3 ++ o4)

/-- Keyboard branch of `process_event` (lines 142-193), after
`key = event['key']` has succeeded.  No further field access can fail. -/
def kbHandle (s : CState) (e : RawEvent) (key : String) :
    CState × List OutRec :=
  let pid := PendKey.kb key
  if e.type = "press" then
    match lookupPend s.pending pid with
    | some stale =>
      ({ s with pending := erasePend s.pending pid ++ [(pid, e)] },
       [.raw stale])
    | none => ({ s with pending := s.pending ++ [(pid, e)] }, [])
  else if e.type = "release" then
    match lookupPend s.pending pid with
    | some press =>
      let s1 := { s with pending := erasePend s.pending pid }
      let duration := round5 (e.ts - press.ts)
      if duration ≤ KEY_CLICK_MAX_DELTA then
        if is_char_key key then
          let ch := to_char key
          if s1.typedCharBuffer = [] ∨
              press.ts - s1.lastTypedCharTs ≤ TYPING_MAX_INTERKEY_DELTA then
            ({ s1 with
                typedCharBuffer :=
                  s1.typedCharBuffer ++ [⟨ch, press.ts, duration⟩],
                lastTypedCharTs := press.ts }, [])
          else
            let (s2, o) := flushTypedCharBuffer s1
            ({ s2 with
                typedCharBuffer := s2.typedCharBuffer ++ [⟨ch, press.ts, duration⟩],
                lastTypedCharTs := press.ts }, o)
        else
          let (s2, o) := flushTypedCharBuffer s1
          (s2, o ++ [.keyClick press.ts key duration])
      else (s1, [.raw press, .raw e])
    | none => (s, [.raw e])
  else (s, [])

/-- Mouse branch of `process_event` (lines 196-251), after
`x, y = event['x'], event['y']` have succeeded. -/
def mouseHandle (s : CState) (e : RawEvent) (x y : ℚ) :
    Except Unit (CState × List OutRec) :=
  if e.type = "click" then
    match e.button, e.pressed with
    | some button, some pressed =>
      let pid := PendKey.ms button x y
      if pressed then
        match lookupPend s.pending pid with
        | some stale =>
          .ok ({ s with pending := erasePend s.pending pid ++ [(pid, e)] },
            [.raw stale])
        | none => .ok ({ s with pending := s.pending ++ [(pid, e)] }, [])
      else
        match lookupPend s.pending pid with
        | some press =>
          let s1 := { s with pending := erasePend s.pending pid }
          let duration := round5 (e.ts - press.ts)
          if duration ≤ MOUSE_CLICK_MAX_DELTA then
            .ok (s1, [.mouseClick press.ts x y button duration])
          else .ok (s1, [.raw press, .raw e])
        | none => .ok (s, [.raw e])
    | _, _ => .error ()
  else if e.type = "move" then
    if s.mouseMoveBuffer = [] ∨
        e.ts - s.lastMouseMoveTs ≤ MOUSE_SEQUENCE_MAX_DELTA then
      .ok ({ s with
              mouseMoveBuffer := s.mouseMoveBuffer ++ [e],
              lastMouseMoveTs := e.ts }, [])
    else
      match flushMouseMoveBuffer s with
      | .error u => .error u
      | .ok (s2, o) =>
        .ok ({ s2 with
                mouseMoveBuffer := s2.mouseMoveBuffer ++ [e],
                lastMouseMoveTs := e.ts }, o)
  else if e.type = "scroll" then
    if s.mouseScrollBuffer = [] ∨
        e.ts - s.lastMouseScrollTs ≤ MOUSE_SEQUENCE_MAX_DELTA then
      .ok ({ s with
              mouseScrollBuffer := s.mouseScrollBuffer ++ [e],
              lastMouseScrollTs := e.ts }, [])
    else
      match flushMouseScrollBuffer s with
      | .error u => .error u
      | .ok (s2, o) =>
        .ok ({ s2 with
                mouseScrollBuffer := s2.mouseScrollBuffer ++ [e],
                lastMouseScrollTs := e.ts }, o)
  else .ok (s, [.raw e])

/-- `process_event(event)` (lines 123-254). -/
def processEvent (s : CState) (e : RawEvent) :
    Except Unit (CState × List OutRec) :=
  match entryFlush s e with
  | .error u => .error u
  | .ok (s1, o1) =>
    if e.device = "keyboard" then
      match e.key with
      | none => .error ()
      | some key =>
        let (s2, o2) := kbHandle s1 e key
        .ok (s2, o1 ++ o2)
    else if e.device = "mouse" then
      match e.x, e.y with
      | some x, some y =>
        match mouseHandle s1 e x y with
        | .error u => .error u
        | .ok (s2, o2) => .ok (s2, o1 ++ o2)
      | _, _ => .error ()
    else .ok (s1, o1 ++ [.raw e])

/-- `finalize()` (lines 256-266): force-flush the three buffers in fixed
order, then emit every still-pending press in insertion order. -/
def finalize (s : CState) : Except Unit (CState × List OutRec) :=
  let (s1, o1) := flushTypedCharBuffer s
  match flushMouseMoveBuffer s1 with
  | .error u => .error u
  | .ok (s2, o2) =>
    match flushMouseScrollBuffer s2 with
    | .error u => .error u
    | .ok (s3, o3) =>
      .ok ({ s3 with pending := [] },
        o1 ++ o2 ++ o3 ++ s3.pending.map (fun kv => OutRec.raw kv.2))

/-- Feed a list of events through `process_event` starting from `s`,
collecting emissions in order. -/
def runFrom (s : CState) : List RawEvent → Except Unit (CState × List OutRec)
  | [] => .ok (s, [])
  | e :: rest =>
    match processEvent s e with
    | .error u => .error u
    | .ok (s1, o1) =>
      match runFrom s1 rest with
      | .error u => .error u
      | .ok (s2, o2) => .ok (s2, o1 ++ o2)

/-- A whole session without the final flush: start fresh, feed events. -/
def runEvents (es : List RawEvent) : Except Unit (CState × List OutRec) :=
  runFrom initState es

/-- A whole session: start fresh, feed all events, then `finalize()`.
The result is the full output stream. -/
def runFin (es : List RawEvent) : Except Unit (List OutRec) :=
  match runEvents es with
  | .error u => .error u
  | .ok (s, out) =>
    match finalize s with
    | .error u => .error u
    | .ok (_, out2) => .ok (out ++ out2)

/-! ## Characterization lemmas for the flush helpers -/

theorem flushTyped_nil {s : CState} (h : s.typedCharBuffer = []) :
    flushTypedCharBuffer s = (s, []) := by
  unfold flushTypedCharBuffer; rw [h]

theorem flushTyped_cons {s : CState} {first : TypedChar} {rest : List TypedChar}
    (h : s.typedCharBuffer = first :: rest) :
    flushTypedCharBuffer s =
      ({ s with typedCharBuffer := [], lastTypedCharTs := 0 },
       [.typedString first.ts
          (String.join ((first :: rest).map (fun item => item.char)))
          (round5 ((rest.getLastD first).ts + (rest.getLastD first).duration
            - first.ts))
          (String.join ((first :: rest).map (fun item => item.char))).length]) := by
  unfold flushTypedCharBuffer; rw [h]

/-- Frame lemma: a successful move-buffer flush empties that buffer, leaves
every other state component alone, and emits nothing (empty buffer) or one
`condensed_move` record (non-empty buffer). -/
theorem flushMove_frame {s : CState} {r : CState × List OutRec}
    (h : flushMouseMoveBuffer s = .ok r) :
    r.1.pending = s.pending ∧ r.1.typedCharBuffer = s.typedCharBuffer ∧
    r.1.lastTypedCharTs = s.lastTypedCharTs ∧
    r.1.mouseScrollBuffer = s.mouseScrollBuffer ∧
    r.1.lastMouseScrollTs = s.lastMouseScrollTs ∧
    r.1.mouseMoveBuffer = [] ∧
    ((s.mouseMoveBuffer = [] ∧ r = (s, [])) ∨
     (s.mouseMoveBuffer ≠ [] ∧
      ∃ t a b c d du n, r.2 = [.condensedMove t a b c d du n])) := by
  unfold flushMouseMoveBuffer at h
  split at h
  · next hb =>
    injection h with h1
    subst h1
    simp [hb]
  · next first rest hb =>
    dsimp only at h
    split at h
    · next fx fy lx ly hfx hfy hlx hly =>
      injection h with h1
      subst h1
      refine ⟨rfl, rfl, rfl, rfl, rfl, rfl, Or.inr ⟨by simp [hb], ?_⟩⟩
      exact ⟨_, _, _, _, _, _, _, rfl⟩
    · next => exact absurd h (by simp)

/-- Frame lemma for a successful scroll-buffer flush. -/
theorem flushScroll_frame {s : CState} {r : CState × List OutRec}
    (h : flushMouseScrollBuffer s = .ok r) :
    r.1.pending = s.pending ∧ r.1.typedCharBuffer = s.typedCharBuffer ∧
    r.1.lastTypedCharTs = s.lastTypedCharTs ∧
    r.1.mouseMoveBuffer = s.mouseMoveBuffer ∧
    r.1.lastMouseMoveTs = s.lastMouseMoveTs ∧
    r.1.mouseScrollBuffer = [] ∧
    ((s.mouseScrollBuffer = [] ∧ r = (s, [])) ∨
     (s.mouseScrollBuffer ≠ [] ∧
      ∃ t dx dy du n, r.2 = [.condensedScroll t dx dy du n])) := by
  unfold flushMouseScrollBuffer at h
  split at h
  · next hb =>
    injection h with h1
    subst h1
    simp [hb]
  · next first rest hb =>
    dsimp only at h
    split at h
    · next tdx tdy hdx hdy =>
      injection h with h1
      subst h1
      refine ⟨rfl, rfl, rfl, rfl, rfl, rfl, Or.inr ⟨by simp [hb], ?_⟩⟩
      exact ⟨_, _, _, _, _, rfl⟩
    · next => exact absurd h (by simp)

/-- **C4** Finalize semantics: one `finalize()` call flushes the three run
buffers in the fixed order typed-string, mouse-move, mouse-scroll (each
flush emitting one summary record iff its buffer is non-empty), then
emits every still-pending press as a standalone pass-through record in
the insertion order of the pending-press map, leaving all buffers and
the pending-press map empty. -/
theorem C4_finalize_semantics (s sf : CState) (out : List OutRec)
    (h : finalize s = .ok (sf, out)) :
    sf.typedCharBuffer = [] ∧ sf.mouseMoveBuffer = [] ∧
    sf.mouseScrollBuffer = [] ∧ sf.pending = [] ∧
    ∃ o1 o2 o3,
      out = o1 ++ o2 ++ o3 ++ s.pending.map (fun kv => OutRec.raw kv.2) ∧
      ((s.typedCharBuffer = [] ∧ o1 = []) ∨
       (s.typedCharBuffer ≠ [] ∧ ∃ t st d n, o1 = [.typedString t st d n])) ∧
      ((s.mouseMoveBuffer = [] ∧ o2 = []) ∨
       (s.mouseMoveBuffer ≠ [] ∧
        ∃ t a b c d du n, o2 = [.condensedMove t a b c d du n])) ∧
      ((s.mouseScrollBuffer = [] ∧ o3 = []) ∨
       (s.mouseScrollBuffer ≠ [] ∧
        ∃ t dx dy du n, o3 = [.condensedScroll t dx dy du n])) := by
  unfold finalize at h
  rcases hp : flushTypedCharBuffer s with ⟨s1, o1⟩
  rw [hp] at h
  dsimp only at h
  rcases hm : flushMouseMoveBuffer s1 with u | ⟨s2, o2⟩
  · rw [hm] at h; exact absurd h (by simp)
  rw [hm] at h
  dsimp only at h
  rcases hc : flushMouseScrollBuffer s2 with u | ⟨s3, o3⟩
  · rw [hc] at h; exact absurd h (by simp)
  rw [hc] at h
  dsimp only at h
  injection h with h1
  rw [Prod.mk.injEq] at h1
  obtain ⟨hsf, hout⟩ := h1
  subst hsf hout
  obtain ⟨m1, m2, m3, m4, m5, m6, m7⟩ := flushMove_frame hm
  obtain ⟨c1, c2, c3, c4, c5, c6, c7⟩ := flushScroll_frame hc
  have hs1 : s1.pending = s.pending ∧ s1.typedCharBuffer = [] ∧
      s1.mouseMoveBuffer = s.mouseMoveBuffer ∧
      s1.mouseScrollBuffer = s.mouseScrollBuffer ∧
      ((s.typedCharBuffer = [] ∧ o1 = []) ∨
       (s.typedCharBuffer ≠ [] ∧ ∃ t st d n, o1 = [.typedString t st d n])) := by
    cases hb : s.typedCharBuffer with
    | nil =>
      rw [flushTyped_nil hb] at hp
      injection hp with hA hB
      subst hA hB
      exact ⟨rfl, hb, rfl, rfl, Or.inl ⟨rfl, rfl⟩⟩
    | cons first rest =>
      rw [flushTyped_cons hb] at hp
      injection hp with hA hB
      subst hA hB
      exact ⟨rfl, rfl, rfl, rfl, Or.inr ⟨by simp, _, _, _, _, rfl⟩⟩
  obtain ⟨p1, p2, p3, p4, p5⟩ := hs1
  refine ⟨by rw [c2, m2, p2], by rw [c4, m6], c6, rfl, o1, o2, o3, ?_, p5, ?_, ?_⟩
  · have : s3.pending = s.pending := by rw [c1, m1, p1]
    rw [this]
  · rcases m7 with ⟨he, hr⟩ | ⟨hne, hsh⟩
    · rw [Prod.mk.injEq] at hr
      exact Or.inl ⟨by rw [← p3, he], hr.2⟩
    · exact Or.inr ⟨by rw [← p3]; exact hne, hsh⟩
  · rcases c7 with ⟨he, hr⟩ | ⟨hne, hsh⟩
    · rw [Prod.mk.injEq] at hr
      exact Or.inl ⟨by rw [← p4, ← m4, he], hr.2⟩
    · exact Or.inr ⟨by rw [← p4, ← m4]; exact hne, hsh⟩

/-! ## Press/release accounting -/

/-- Number of input presses/releases an input event stands for: keyboard
`press`/`release` events and mouse `click` events count 1, everything
else (moves, scrolls, unknown types) counts 0. -/
def inW (e : RawEvent) : ℕ :=
  if (e.device = "keyboard" ∧ (e.type = "press" ∨ e.type = "release")) ∨
      (e.device = "mouse" ∧ e.type = "click") then 1 else 0

/-- Number of input presses/releases an output record accounts for: a
classified click merges one press and one release; a `typed_string`
merges `num_chars` press/release pairs; condensed moves/scrolls merge no
presses; a pass-through accounts for its underlying raw event. -/
def outW : OutRec → ℕ
  | .raw e => inW e
  | .keyClick _ _ _ => 2
  | .typedString _ _ _ n => 2 * n
  | .mouseClick _ _ _ _ _ => 2
  | .condensedMove _ _ _ _ _ _ _ => 0
  | .condensedScroll _ _ _ _ _ => 0

def sumW (l : List OutRec) : ℕ := (l.map outW).sum

def sumInW (l : List RawEvent) : ℕ := (l.map inW).sum

/-- Total character count held in the typed-char buffer. -/
def charlen (l : List TypedChar) : ℕ := (l.map (fun el => el.char.length)).sum

theorem sumW_append (l1 l2 : List OutRec) : sumW (l1 ++ l2) = sumW l1 + sumW l2 := by
  simp [sumW]

theorem join_length (l : List String) :
    (String.join l).length = (l.map String.length).sum := by
  induction l with
  | nil => rfl
  | cons hd tl ih =>
    simp only [String.length, String.data_join, List.map_map] at ih ⊢
    simp only [List.length_flatten, List.map_map]
    rfl

/-- The `typed_string` record a non-empty flush emits accounts for
exactly the characters that were buffered. -/
theorem flushTyped_weight (s : CState) :
    sumW (flushTypedCharBuffer s).2 + 2 * charlen (flushTypedCharBuffer s).1.typedCharBuffer
      = 2 * charlen s.typedCharBuffer := by
  cases hb : s.typedCharBuffer with
  | nil => rw [flushTyped_nil hb]; simp [sumW, hb]
  | cons first rest =>
    rw [flushTyped_cons hb]
    simp only [sumW, charlen, List.map_cons, List.map_nil, List.sum_cons,
      List.sum_nil, outW]
    rw [join_length]
    simp only [List.map_map, List.map_cons, List.sum_cons, Nat.mul_add]
    rfl

theorem flushTyped_fields (s : CState) :
    (flushTypedCharBuffer s).1.pending = s.pending ∧
    (flushTypedCharBuffer s).1.typedCharBuffer = [] ∧
    (flushTypedCharBuffer s).1.mouseMoveBuffer = s.mouseMoveBuffer ∧
    (flushTypedCharBuffer s).1.lastMouseMoveTs = s.lastMouseMoveTs ∧
    (flushTypedCharBuffer s).1.mouseScrollBuffer = s.mouseScrollBuffer ∧
    (flushTypedCharBuffer s).1.lastMouseScrollTs = s.lastMouseScrollTs := by
  cases hb : s.typedCharBuffer with
  | nil => rw [flushTyped_nil hb]; exact ⟨rfl, hb, rfl, rfl, rfl, rfl⟩
  | cons first rest => rw [flushTyped_cons hb]; exact ⟨rfl, rfl, rfl, rfl, rfl, rfl⟩

/-- Stage spec: the conditional typed-char flush
`if c then flushTypedCharBuffer s else (s, [])`. -/
theorem stageTyped_spec (c : Prop) [Decidable c] (s s1 : CState) (o1 : List OutRec)
    (h : (if c then flushTypedCharBuffer s else (s, [])) = (s1, o1)) :
    s1.pending = s.pending ∧
    s1.mouseMoveBuffer = s.mouseMoveBuffer ∧
    s1.lastMouseMoveTs = s.lastMouseMoveTs ∧
    s1.mouseScrollBuffer = s.mouseScrollBuffer ∧
    s1.lastMouseScrollTs = s.lastMouseScrollTs ∧
    ((s1.typedCharBuffer = s.typedCharBuffer ∧
      s1.lastTypedCharTs = s.lastTypedCharTs ∧ o1 = []) ∨
     s1.typedCharBuffer = []) ∧
    sumW o1 + 2 * charlen s1.typedCharBuffer = 2 * charlen s.typedCharBuffer ∧
    (c → s1.typedCharBuffer = []) ∧
    (c → s.typedCharBuffer ≠ [] →
      ∃ t st d n, o1 = [OutRec.typedString t st d n]) := by
  by_cases hc : c
  · rw [if_pos hc] at h
    obtain ⟨f1, f2, f3, f4, f5, f6⟩ := flushTyped_fields s
    have hw := flushTyped_weight s
    rw [h] at f1 f2 f3 f4 f5 f6 hw
    refine ⟨f1, f3, f4, f5, f6, Or.inr f2, hw, fun _ => f2, ?_⟩
    intro _ hne
    cases hb : s.typedCharBuffer with
    | nil => exact absurd hb hne
    | cons first rest =>
      rw [flushTyped_cons hb] at h
      rw [Prod.mk.injEq] at h
      exact ⟨_, _, _, _, h.2.symm⟩
  · rw [if_neg hc] at h
    rw [Prod.mk.injEq] at h
    obtain ⟨h1, h2⟩ := h
    subst h1 h2
    exact ⟨rfl, rfl, rfl, rfl, rfl, Or.inl ⟨rfl, rfl, rfl⟩, by simp [sumW],
      fun hcc => absurd hcc hc, fun hcc _ => absurd hcc hc⟩

/-- Stage spec: the conditional mouse-move flush. -/
theorem stageMove_spec (c : Prop) [Decidable c] (s s2 : CState) (o2 : List OutRec)
    (h : (if c then flushMouseMoveBuffer s else .ok (s, [])) = .ok (s2, o2)) :
    s2.pending = s.pending ∧
    s2.typedCharBuffer = s.typedCharBuffer ∧
    s2.lastTypedCharTs = s.lastTypedCharTs ∧
    s2.mouseScrollBuffer = s.mouseScrollBuffer ∧
    s2.lastMouseScrollTs = s.lastMouseScrollTs ∧
    ((s2.mouseMoveBuffer = s.mouseMoveBuffer ∧
      s2.lastMouseMoveTs = s.lastMouseMoveTs ∧ o2 = []) ∨
     s2.mouseMoveBuffer = []) ∧
    sumW o2 = 0 ∧
    (c → s2.mouseMoveBuffer = []) := by
  by_cases hc : c
  · rw [if_pos hc] at h
    obtain ⟨f1, f2, f3, f4, f5, f6, f7⟩ := flushMove_frame h
    refine ⟨f1, f2, f3, f4, f5, Or.inr f6, ?_, fun _ => f6⟩
    rcases f7 with ⟨_, hr⟩ | ⟨_, t, a, b, c2, d, du, n, hsh⟩
    · rw [Prod.mk.injEq] at hr
      rw [hr.2]; rfl
    · rw [show (s2, o2).2 = o2 from rfl] at hsh
      rw [hsh]; rfl
  · rw [if_neg hc] at h
    injection h with h1
    rw [Prod.mk.injEq] at h1
    obtain ⟨h1, h2⟩ := h1
    subst h1 h2
    exact ⟨rfl, rfl, rfl, rfl, rfl, Or.inl ⟨rfl, rfl, rfl⟩, rfl,
      fun hcc => absurd hcc hc⟩

/-- Stage spec: the conditional mouse-scroll flush. -/
theorem stageScroll_spec (c : Prop) [Decidable c] (s s2 : CState) (o2 : List OutRec)
    (h : (if c then flushMouseScrollBuffer s else .ok (s, [])) = .ok (s2, o2)) :
    s2.pending = s.pending ∧
    s2.typedCharBuffer = s.typedCharBuffer ∧
    s2.lastTypedCharTs = s.lastTypedCharTs ∧
    s2.mouseMoveBuffer = s.mouseMoveBuffer ∧
    s2.lastMouseMoveTs = s.lastMouseMoveTs ∧
    ((s2.mouseScrollBuffer = s.mouseScrollBuffer ∧
      s2.lastMouseScrollTs = s.lastMouseScrollTs ∧ o2 = []) ∨
     s2.mouseScrollBuffer = []) ∧
    sumW o2 = 0 ∧
    (c → s2.mouseScrollBuffer = []) := by
  by_cases hc : c
  · rw [if_pos hc] at h
    obtain ⟨f1, f2, f3, f4, f5, f6, f7⟩ := flushScroll_frame h
    refine ⟨f1, f2, f3, f4, f5, Or.inr f6, ?_, fun _ => f6⟩
    rcases f7 with ⟨_, hr⟩ | ⟨_, t, dx, dy, du, n, hsh⟩
    · rw [Prod.mk.injEq] at hr
      rw [hr.2]; rfl
    · rw [show (s2, o2).2 = o2 from rfl] at hsh
      rw [hsh]; rfl
  · rw [if_neg hc] at h
    injection h with h1
    rw [Prod.mk.injEq] at h1
    obtain ⟨h1, h2⟩ := h1
    subst h1 h2
    exact ⟨rfl, rfl, rfl, rfl, rfl, Or.inl ⟨rfl, rfl, rfl⟩, rfl,
      fun hcc => absurd hcc hc⟩

/-- Spec of the timeout flush `_flush_all_buffers(ts)`: pending never
changes, each buffer is either untouched (with its tracker) or emptied,
and the emissions account exactly for the flushed typed characters. -/
theorem flushAll_spec {s : CState} {ts : ℚ} {s4 : CState} {o : List OutRec}
    (h : flushAllBuffers s ts = .ok (s4, o)) :
    s4.pending = s.pending ∧
    ((s4.typedCharBuffer = s.typedCharBuffer ∧
      s4.lastTypedCharTs = s.lastTypedCharTs) ∨ s4.typedCharBuffer = []) ∧
    ((s4.mouseMoveBuffer = s.mouseMoveBuffer ∧
      s4.lastMouseMoveTs = s.lastMouseMoveTs) ∨ s4.mouseMoveBuffer = []) ∧
    ((s4.mouseScrollBuffer = s.mouseScrollBuffer ∧
      s4.lastMouseScrollTs = s.lastMouseScrollTs) ∨ s4.mouseScrollBuffer = []) ∧
    sumW o + 2 * charlen s4.typedCharBuffer = 2 * charlen s.typedCharBuffer := by
  unfold flushAllBuffers at h
  rcases hp : (if s.typedCharBuffer ≠ [] ∧
      ts - s.lastTypedCharTs > TYPING_MAX_INTERKEY_DELTA then
      flushTypedCharBuffer s else (s, [])) with ⟨s1, o1⟩
  rw [hp] at h
  dsimp only at h
  rcases hm : (if s1.mouseMoveBuffer ≠ [] ∧
      ts - s1.lastMouseMoveTs > MOUSE_SEQUENCE_MAX_DELTA then
      flushMouseMoveBuffer s1 else .ok (s1, [])) with u | ⟨s2, o2⟩
  · rw [hm] at h; simp at h
  rw [hm] at h
  dsimp only at h
  rcases hc : (if s2.mouseScrollBuffer ≠ [] ∧
      ts - s2.lastMouseScrollTs > MOUSE_SEQUENCE_MAX_DELTA then
      flushMouseScrollBuffer s2 else .ok (s2, [])) with u | ⟨s3, o3⟩
  · rw [hc] at h; simp at h
  rw [hc] at h
  dsimp only at h
  injection h with h1
  rw [Prod.mk.injEq] at h1
  obtain ⟨h2, h3⟩ := h1
  subst h2 h3
  obtain ⟨a1, a2, a3, a4, a5, a6, a7, a8, a9⟩ := stageTyped_spec _ s s1 o1 hp
  obtain ⟨b1, b2, b3, b4, b5, b6, b7, b8⟩ := stageMove_spec _ s1 s2 o2 hm
  obtain ⟨c1, c2, c3, c4, c5, c6, c7, c8⟩ := stageScroll_spec _ s2 s3 o3 hc
  refine ⟨by rw [c1, b1, a1], ?_, ?_, ?_, ?_⟩
  · rcases a6 with ⟨e1, e2, _⟩ | e1
    · exact Or.inl ⟨by rw [c2, b2, e1], by rw [c3, b3, e2]⟩
    · exact Or.inr (by rw [c2, b2, e1])
  · rcases b6 with ⟨e1, e2, _⟩ | e1
    · exact Or.inl ⟨by rw [c4, e1, a2], by rw [c5, e2, a3]⟩
    · exact Or.inr (by rw [c4, e1])
  · rcases c6 with ⟨e1, e2, _⟩ | e1
    · exact Or.inl ⟨by rw [e1, b4, a4], by rw [e2, b5, a5]⟩
    · exact Or.inr e1
  · rw [sumW_append, sumW_append, b7, c7]
    have : charlen s3.typedCharBuffer = charlen s1.typedCharBuffer := by
      rw [c2, b2]
    rw [this]
    omega

/-- Spec of the flushing prelude of `process_event` (type-change flushes
followed by the timeout flush). -/
theorem entryFlush_spec {s : CState} {e : RawEvent} {s4 : CState}
    {o : List OutRec} (h : entryFlush s e = .ok (s4, o)) :
    s4.pending = s.pending ∧
    ((s4.typedCharBuffer = s.typedCharBuffer ∧
      s4.lastTypedCharTs = s.lastTypedCharTs) ∨ s4.typedCharBuffer = []) ∧
    ((s4.mouseMoveBuffer = s.mouseMoveBuffer ∧
      s4.lastMouseMoveTs = s.lastMouseMoveTs) ∨ s4.mouseMoveBuffer = []) ∧
    ((s4.mouseScrollBuffer = s.mouseScrollBuffer ∧
      s4.lastMouseScrollTs = s.lastMouseScrollTs) ∨ s4.mouseScrollBuffer = []) ∧
    sumW o + 2 * charlen s4.typedCharBuffer = 2 * charlen s.typedCharBuffer ∧
    ((e.device = "keyboard" ∧ is_char_key (e.key.getD "") = true) ∨
      s4.typedCharBuffer = []) ∧
    ((e.device = "mouse" ∧ e.type = "move") ∨ s4.mouseMoveBuffer = []) ∧
    ((e.device = "mouse" ∧ e.type = "scroll") ∨ s4.mouseScrollBuffer = []) ∧
    ((e.device ≠ "keyboard" ∨ is_char_key (e.key.getD "") = false) →
      s.typedCharBuffer ≠ [] →
      ∃ t st d n o2, o = OutRec.typedString t st d n :: o2) := by
  unfold entryFlush at h
  rcases hp : (if e.device ≠ "keyboard" ∨ is_char_key (e.key.getD "") = false then
      flushTypedCharBuffer s else (s, [])) with ⟨s1, o1⟩
  rw [hp] at h
  dsimp only at h
  rcases hm : (if e.device ≠ "mouse" ∨ e.type ≠ "move" then
      flushMouseMoveBuffer s1 else .ok (s1, [])) with u | ⟨s2, o2⟩
  · rw [hm] at h; simp at h
  rw [hm] at h
  dsimp only at h
  rcases hc : (if e.device ≠ "mouse" ∨ e.type ≠ "scroll" then
      flushMouseScrollBuffer s2 else .ok (s2, [])) with u | ⟨s3, o3⟩
  · rw [hc] at h; simp at h
  rw [hc] at h
  dsimp only at h
  rcases hA : flushAllBuffers s3 e.ts with u | ⟨sA, oA⟩
  · rw [hA] at h; simp at h
  rw [hA] at h
  dsimp only at h
  injection h with h1
  rw [Prod.mk.injEq] at h1
  obtain ⟨h2, h3⟩ := h1
  subst h2 h3
  obtain ⟨a1, a2, a3, a4, a5, a6, a7, a8, a9⟩ := stageTyped_spec _ s s1 o1 hp
  obtain ⟨b1, b2, b3, b4, b5, b6, b7, b8⟩ := stageMove_spec _ s1 s2 o2 hm
  obtain ⟨c1, c2, c3, c4, c5, c6, c7, c8⟩ := stageScroll_spec _ s2 s3 o3 hc
  obtain ⟨d1, d2, d3, d4, d5⟩ := flushAll_spec hA
  refine ⟨by rw [d1, c1, b1, a1], ?_, ?_, ?_, ?_, ?_, ?_, ?_, ?_⟩
  · rcases d2 with ⟨e1, e2⟩ | e1
    · rcases a6 with ⟨f1, f2, _⟩ | f1
      · exact Or.inl ⟨by rw [e1, c2, b2, f1], by rw [e2, c3, b3, f2]⟩
      · exact Or.inr (by rw [e1, c2, b2, f1])
    · exact Or.inr e1
  · rcases d3 with ⟨e1, e2⟩ | e1
    · rcases b6 with ⟨f1, f2, _⟩ | f1
      · exact Or.inl ⟨by rw [e1, c4, f1, a2], by rw [e2, c5, f2, a3]⟩
      · exact Or.inr (by rw [e1, c4, f1])
    · exact Or.inr e1
  · rcases d4 with ⟨e1, e2⟩ | e1
    · rcases c6 with ⟨f1, f2, _⟩ | f1
      · exact Or.inl ⟨by rw [e1, f1, b4, a4], by rw [e2, f2, b5, a5]⟩
      · exact Or.inr (by rw [e1, f1])
    · exact Or.inr e1
  · rw [sumW_append, sumW_append, sumW_append, b7, c7]
    have hchain : charlen s3.typedCharBuffer = charlen s1.typedCharBuffer := by
      rw [c2, b2]
    omega
  · by_cases hk : e.device = "keyboard" ∧ is_char_key (e.key.getD "") = true
    · exact Or.inl hk
    · have hcond : e.device ≠ "keyboard" ∨ is_char_key (e.key.getD "") = false := by
        rcases not_and_or.mp hk with h | h
        · exact Or.inl h
        · exact Or.inr (by simpa using h)
      have hs1 : s1.typedCharBuffer = [] := a8 hcond
      rcases d2 with ⟨e1, _⟩ | e1
      · exact Or.inr (by rw [e1, c2, b2, hs1])
      · exact Or.inr e1
  · by_cases hk : e.device = "mouse" ∧ e.type = "move"
    · exact Or.inl hk
    · have hcond : e.device ≠ "mouse" ∨ e.type ≠ "move" := not_and_or.mp hk
      have hs2 : s2.mouseMoveBuffer = [] := b8 hcond
      rcases d3 with ⟨e1, _⟩ | e1
      · exact Or.inr (by rw [e1, c4, hs2])
      · exact Or.inr e1
  · by_cases hk : e.device = "mouse" ∧ e.type = "scroll"
    · exact Or.inl hk
    · have hcond : e.device ≠ "mouse" ∨ e.type ≠ "scroll" := not_and_or.mp hk
      have hs3 : s3.mouseScrollBuffer = [] := c8 hcond
      rcases d4 with ⟨e1, _⟩ | e1
      · exact Or.inr (by rw [e1, hs3])
      · exact Or.inr e1
  · intro hdev hne
    obtain ⟨t, st, d, n, ho1⟩ := a9 hdev hne
    rw [ho1]
    exact ⟨t, st, d, n, o2 ++ o3 ++ oA, by simp⟩

/-- **C3** Output ordering on type-change flush: whenever a non-empty
typed-char buffer is flushed by an event that does not continue it, the
`typed_string` record is the first emission of that `process_event`
call, before anything the event itself emits; in particular, for a
mouse release completing a pending click within
`MOUSE_CLICK_MAX_DELTA`, the `typed_string` record appears strictly
before the `mouse_click` record. -/
theorem C3_typed_string_before_mouse_click :
    (∀ (s : CState) (e : RawEvent) (s2 : CState) (out : List OutRec),
      processEvent s e = .ok (s2, out) →
      (e.device ≠ "keyboard" ∨ is_char_key (e.key.getD "") = false) →
      s.typedCharBuffer ≠ [] →
      ∃ t st d n o2, out = OutRec.typedString t st d n :: o2) ∧
    (∀ (s : CState) (e press : RawEvent) (x y : ℚ) (b : String)
      (s2 : CState) (out : List OutRec),
      e.device = "mouse" → e.type = "click" → e.x = some x → e.y = some y →
      e.button = some b → e.pressed = some false →
      lookupPend s.pending (PendKey.ms b x y) = some press →
      round5 (e.ts - press.ts) ≤ MOUSE_CLICK_MAX_DELTA →
      s.typedCharBuffer ≠ [] →
      processEvent s e = .ok (s2, out) →
      (∃ t st d n, out.head? = some (.typedString t st d n)) ∧
      out.getLast? =
        some (.mouseClick press.ts x y b (round5 (e.ts - press.ts))) ∧
      2 ≤ out.length) := by
  constructor
  · intro s e s2 out h hcond hne
    unfold processEvent at h
    rcases hE : entryFlush s e with u | ⟨s4, o1⟩
    · rw [hE] at h; simp at h
    rw [hE] at h
    dsimp only at h
    obtain ⟨a1, a2, a3, a4, a5, a6, a7, a8, a9⟩ := entryFlush_spec hE
    obtain ⟨t, st, d, n, o2, ho1⟩ := a9 hcond hne
    subst ho1
    by_cases hdev : e.device = "keyboard"
    · rw [if_pos hdev] at h
      rcases hkey : e.key with _ | k
      · rw [hkey] at h; simp at h
      rw [hkey] at h
      dsimp only at h
      injection h with h1
      rw [Prod.mk.injEq] at h1
      obtain ⟨h2, h3⟩ := h1
      subst h3
      exact ⟨t, st, d, n, _, rfl⟩
    · rw [if_neg hdev] at h
      by_cases hdm : e.device = "mouse"
      · rw [if_pos hdm] at h
        rcases hx : e.x with _ | xv
        · rw [hx] at h; simp at h
        rcases hy : e.y with _ | yv
        · rw [hx, hy] at h; simp at h
        rw [hx, hy] at h
        dsimp only at h
        rcases hmh : mouseHandle s4 e xv yv with u | ⟨sr, orr⟩
        · rw [hmh] at h; simp at h
        rw [hmh] at h
        dsimp only at h
        injection h with h1
        rw [Prod.mk.injEq] at h1
        obtain ⟨h2, h3⟩ := h1
        subst h3
        exact ⟨t, st, d, n, _, rfl⟩
      · rw [if_neg hdm] at h
        injection h with h1
        rw [Prod.mk.injEq] at h1
        obtain ⟨h2, h3⟩ := h1
        subst h3
        exact ⟨t, st, d, n, _, rfl⟩
  · intro s e press x y b s2 out hdev htype hx hy hbt hpr hlookup hdur hne h
    unfold processEvent at h
    rcases hE : entryFlush s e with u | ⟨s4, o1⟩
    · rw [hE] at h; simp at h
    rw [hE] at h
    dsimp only at h
    rw [if_neg (by rw [hdev]; decide), if_pos hdev, hx, hy] at h
    dsimp only at h
    obtain ⟨a1, a2, a3, a4, a5, a6, a7, a8, a9⟩ := entryFlush_spec hE
    have hmh : mouseHandle s4 e x y =
        .ok ({ s4 with pending := erasePend s4.pending (PendKey.ms b x y) },
             [.mouseClick press.ts x y b (round5 (e.ts - press.ts))]) := by
      unfold mouseHandle
      rw [if_pos htype, hbt, hpr]
      dsimp only
      rw [if_neg (show ¬(false = true) by decide), a1, hlookup]
      dsimp only
      rw [if_pos hdur]
    rw [hmh] at h
    dsimp only at h
    injection h with h1
    rw [Prod.mk.injEq] at h1
    obtain ⟨h2, h3⟩ := h1
    subst h2 h3
    obtain ⟨t, st, d, n, o2, ho1⟩ := a9 (Or.inl (by rw [hdev]; decide)) hne
    subst ho1
    refine ⟨⟨t, st, d, n, rfl⟩, ?_, by simp⟩
    exact List.getLast?_concat _

/-! ## Concrete sample events and states used by witnesses -/

def eMousePressW : RawEvent :=
  { ts := 0, device := "mouse", type := "click", x := some 10, y := some 20,
    button := some "Button.left", pressed := some true }

def eMouseRelW : RawEvent :=
  { ts := 1/10, device := "mouse", type := "click", x := some 10, y := some 20,
    button := some "Button.left", pressed := some false }

def sC3 : CState :=
  { pending := [(PendKey.ms "Button.left" 10 20, eMousePressW)],
    typedCharBuffer := [⟨"a", 0, 1/100⟩], lastTypedCharTs := 0,
    mouseMoveBuffer := [], lastMouseMoveTs := 0,
    mouseScrollBuffer := [], lastMouseScrollTs := 0 }

def outC3 : List OutRec :=
  [.typedString 0 "a" (1/100) 1, .mouseClick 0 10 20 "Button.left" (1/10)]

theorem C3_typed_string_before_mouse_click_witness :
    (∃ t st d n o2w, outC3 = OutRec.typedString t st d n :: o2w) ∧
    ((∃ t st d n, outC3.head? = some (.typedString t st d n)) ∧
     outC3.getLast? = some (.mouseClick eMousePressW.ts 10 20 "Button.left"
       (round5 (eMouseRelW.ts - eMousePressW.ts))) ∧
     2 ≤ outC3.length) :=
  ⟨C3_typed_string_before_mouse_click.1 sC3 eMouseRelW initState outC3
     (by decide) (Or.inl (by decide)) (by decide),
   C3_typed_string_before_mouse_click.2 sC3 eMouseRelW eMousePressW 10 20
     "Button.left" initState outC3 rfl rfl rfl rfl rfl rfl (by decide)
     (by decide) (by decide) (by decide)⟩

def wPressW : RawEvent :=
  { ts := 0, device := "keyboard", type := "press", key := some "a" }

def wStateW : CState :=
  { pending := [(PendKey.kb "a", wPressW)],
    typedCharBuffer := [⟨"a", 0, 1/100⟩], lastTypedCharTs := 0,
    mouseMoveBuffer := [], lastMouseMoveTs := 0,
    mouseScrollBuffer := [], lastMouseScrollTs := 0 }

theorem C4_finalize_semantics_witness :
    initState.typedCharBuffer = [] ∧ initState.mouseMoveBuffer = [] ∧
    initState.mouseScrollBuffer = [] ∧ initState.pending = [] ∧
    ∃ o1 o2 o3,
      ([.typedString 0 "a" (1/100) 1, .raw wPressW] : List OutRec) =
        o1 ++ o2 ++ o3 ++ wStateW.pending.map (fun kv => OutRec.raw kv.2) ∧
      ((wStateW.typedCharBuffer = [] ∧ o1 = []) ∨
       (wStateW.typedCharBuffer ≠ [] ∧ ∃ t st d n, o1 = [.typedString t st d n])) ∧
      ((wStateW.mouseMoveBuffer = [] ∧ o2 = []) ∨
       (wStateW.mouseMoveBuffer ≠ [] ∧
        ∃ t a b c d du n, o2 = [.condensedMove t a b c d du n])) ∧
      ((wStateW.mouseScrollBuffer = [] ∧ o3 = []) ∨
       (wStateW.mouseScrollBuffer ≠ [] ∧
        ∃ t dx dy du n, o3 = [.condensedScroll t dx dy du n])) :=
  C4_finalize_semantics wStateW initState
    [.typedString 0 "a" (1/100) 1, .raw wPressW] (by decide)

/-- When the incoming event is a character-key keyboard event whose
timestamp is within the typing gap of the buffer tracker and the mouse
buffers are empty, the flushing prelude of `process_event` does nothing. -/
theorem entryFlush_kb_char_keep (s : CState) (e : RawEvent) (k : String)
    (hdev : e.device = "keyboard") (hkey : e.key = some k)
    (hchar : is_char_key k = true)
    (hgap : ¬(e.ts - s.lastTypedCharTs > TYPING_MAX_INTERKEY_DELTA))
    (hmv : s.mouseMoveBuffer = []) (hsc : s.mouseScrollBuffer = []) :
    entryFlush s e = .ok (s, []) := by
  unfold entryFlush
  have hc1 : ¬(e.device ≠ "keyboard" ∨ is_char_key (e.key.getD "") = false) := by
    rw [hdev, hkey]
    simp [hchar]
  rw [if_neg hc1]
  dsimp only
  have hm : flushMouseMoveBuffer s = .ok (s, []) := by
    unfold flushMouseMoveBuffer; rw [hmv]
  have hmm : (if e.device ≠ "mouse" ∨ e.type ≠ "move" then
      flushMouseMoveBuffer s else .ok (s, [])) = .ok (s, []) := by
    by_cases hc : (e.device ≠ "mouse" ∨ e.type ≠ "move")
    · rw [if_pos hc, hm]
    · rw [if_neg hc]
  rw [hmm]
  dsimp only
  have hs : flushMouseScrollBuffer s = .ok (s, []) := by
    unfold flushMouseScrollBuffer; rw [hsc]
  have hss : (if e.device ≠ "mouse" ∨ e.type ≠ "scroll" then
      flushMouseScrollBuffer s else .ok (s, [])) = .ok (s, []) := by
    by_cases hc : (e.device ≠ "mouse" ∨ e.type ≠ "scroll")
    · rw [if_pos hc, hs]
    · rw [if_neg hc]
  rw [hss]
  dsimp only
  have hfa : flushAllBuffers s e.ts = .ok (s, []) := by
    unfold flushAllBuffers
    have h1 : ¬(s.typedCharBuffer ≠ [] ∧
        e.ts - s.lastTypedCharTs > TYPING_MAX_INTERKEY_DELTA) := by
      intro hand; exact hgap hand.2
    rw [if_neg h1]
    dsimp only
    have h2 : ¬(s.mouseMoveBuffer ≠ [] ∧
        e.ts - s.lastMouseMoveTs > MOUSE_SEQUENCE_MAX_DELTA) := by
      intro hand; exact hand.1 hmv
    rw [if_neg h2]
    dsimp only
    have h3 : ¬(s.mouseScrollBuffer ≠ [] ∧
        e.ts - s.lastMouseScrollTs > MOUSE_SEQUENCE_MAX_DELTA) := by
      intro hand; exact hand.1 hsc
    rw [if_neg h3]
    rfl
  rw [hfa]
  rfl

/-- **C6** The fine-grained typing-gap check inside click classification
uses the press timestamp: when a character-key click is classified with
a non-empty typed-char buffer (and the event itself is within the
generic timeout of the buffer, so the prelude does not flush), the
continue-vs-restart decision compares the press timestamp of the new
key with the press timestamp of the most recently buffered element: a
gap over `TYPING_MAX_INTERKEY_DELTA` flushes the old buffer and starts
a fresh one-element buffer, otherwise the run is extended. -/
theorem C6_gap_check_uses_press_timestamp
    (s : CState) (e press : RawEvent) (k : String) (s2 : CState)
    (out : List OutRec)
    (hdev : e.device = "keyboard") (htype : e.type = "release")
    (hkey : e.key = some k) (hchar : is_char_key k = true)
    (hlookup : lookupPend s.pending (PendKey.kb k) = some press)
    (hdur : round5 (e.ts - press.ts) ≤ KEY_CLICK_MAX_DELTA)
    (hne : s.typedCharBuffer ≠ [])
    (hgap : ¬(e.ts - s.lastTypedCharTs > TYPING_MAX_INTERKEY_DELTA))
    (hmv : s.mouseMoveBuffer = []) (hsc : s.mouseScrollBuffer = [])
    (h : processEvent s e = .ok (s2, out)) :
    (press.ts - s.lastTypedCharTs > TYPING_MAX_INTERKEY_DELTA →
      (∃ t st d n, out = [OutRec.typedString t st d n]) ∧
      s2.typedCharBuffer = [⟨to_char k, press.ts, round5 (e.ts - press.ts)⟩] ∧
      s2.lastTypedCharTs = press.ts) ∧
    (press.ts - s.lastTypedCharTs ≤ TYPING_MAX_INTERKEY_DELTA →
      out = [] ∧
      s2.typedCharBuffer =
        s.typedCharBuffer ++ [⟨to_char k, press.ts, round5 (e.ts - press.ts)⟩] ∧
      s2.lastTypedCharTs = press.ts) := by
  unfold processEvent at h
  rw [entryFlush_kb_char_keep s e k hdev hkey hchar hgap hmv hsc] at h
  dsimp only at h
  rw [if_pos hdev, hkey] at h
  dsimp only at h
  unfold kbHandle at h
  rw [if_neg (by rw [htype]; decide), if_pos htype, hlookup] at h
  dsimp only at h
  rw [if_pos hdur, hchar] at h
  rw [if_pos rfl] at h
  by_cases hg : press.ts - s.lastTypedCharTs > TYPING_MAX_INTERKEY_DELTA
  · have hcond : ¬({ s with pending := erasePend s.pending (PendKey.kb k)
        }.typedCharBuffer = [] ∨
        press.ts - { s with pending := erasePend s.pending (PendKey.kb k)
        }.lastTypedCharTs ≤ TYPING_MAX_INTERKEY_DELTA) := by
      dsimp only
      push_neg
      exact ⟨hne, hg⟩
    rw [if_neg hcond] at h
    obtain ⟨first, rest, hb⟩ := List.exists_cons_of_ne_nil hne
    rw [flushTyped_cons (by dsimp only; exact hb)] at h
    dsimp only at h
    injection h with h1
    rw [Prod.mk.injEq] at h1
    obtain ⟨h2, h3⟩ := h1
    subst h2 h3
    refine ⟨fun _ => ⟨⟨_, _, _, _, rfl⟩, by simp, rfl⟩, fun habs => ?_⟩
    exact absurd habs (not_le.mpr hg)
  · have hcond : ({ s with pending := erasePend s.pending (PendKey.kb k)
        }.typedCharBuffer = [] ∨
        press.ts - { s with pending := erasePend s.pending (PendKey.kb k)
        }.lastTypedCharTs ≤ TYPING_MAX_INTERKEY_DELTA) := by
      dsimp only
      exact Or.inr (not_lt.mp hg)
    rw [if_pos hcond] at h
    injection h with h1
    rw [Prod.mk.injEq] at h1
    obtain ⟨h2, h3⟩ := h1
    subst h2 h3
    exact ⟨fun habs => absurd (not_lt.mp hg) (not_le.mpr habs),
      fun _ => ⟨rfl, rfl, rfl⟩⟩

def pressB : RawEvent :=
  { ts := 12, device := "keyboard", type := "press", key := some "b" }

def relB : RawEvent :=
  { ts := 11, device := "keyboard", type := "release", key := some "b" }

def sC6 : CState :=
  { pending := [(PendKey.kb "b", pressB)],
    typedCharBuffer := [⟨"a", 10, 0⟩], lastTypedCharTs := 10,
    mouseMoveBuffer := [], lastMouseMoveTs := 0,
    mouseScrollBuffer := [], lastMouseScrollTs := 0 }

def s2C6 : CState :=
  { pending := [], typedCharBuffer := [⟨"b", 12, -1⟩], lastTypedCharTs := 12,
    mouseMoveBuffer := [], lastMouseMoveTs := 0,
    mouseScrollBuffer := [], lastMouseScrollTs := 0 }

theorem C6_gap_check_uses_press_timestamp_witness :
    (pressB.ts - sC6.lastTypedCharTs > TYPING_MAX_INTERKEY_DELTA →
      (∃ t st d n, ([OutRec.typedString 10 "a" 0 1] : List OutRec) =
        [OutRec.typedString t st d n]) ∧
      s2C6.typedCharBuffer =
        [⟨to_char "b", pressB.ts, round5 (relB.ts - pressB.ts)⟩] ∧
      s2C6.lastTypedCharTs = pressB.ts) ∧
    (pressB.ts - sC6.lastTypedCharTs ≤ TYPING_MAX_INTERKEY_DELTA →
      ([OutRec.typedString 10 "a" 0 1] : List OutRec) = [] ∧
      s2C6.typedCharBuffer =
        sC6.typedCharBuffer ++ [⟨to_char "b", pressB.ts, round5 (relB.ts - pressB.ts)⟩] ∧
      s2C6.lastTypedCharTs = pressB.ts) :=
  C6_gap_check_uses_press_timestamp sC6 relB pressB "b" s2C6
    [OutRec.typedString 10 "a" 0 1] rfl rfl rfl (by decide) (by decide)
    (by decide) (by decide) (by decide) rfl rfl (by decide)

/-- The keyboard handler never touches the mouse buffers. -/
theorem kbHandle_frame (s : CState) (e : RawEvent) (k : String) :
    (kbHandle s e k).1.mouseMoveBuffer = s.mouseMoveBuffer ∧
    (kbHandle s e k).1.lastMouseMoveTs = s.lastMouseMoveTs ∧
    (kbHandle s e k).1.mouseScrollBuffer = s.mouseScrollBuffer ∧
    (kbHandle s e k).1.lastMouseScrollTs = s.lastMouseScrollTs := by
  unfold kbHandle
  dsimp only
  rcases hF : flushTypedCharBuffer
      { s with pending := erasePend s.pending (PendKey.kb k) } with ⟨sf, of⟩
  obtain ⟨f1, f2, f3, f4, f5, f6⟩ := flushTyped_fields
    { s with pending := erasePend s.pending (PendKey.kb k) }
  rw [hF] at f1 f2 f3 f4 f5 f6
  simp only [hF]
  repeat' split
  all_goals simp_all

/-- The mouse-click branch never touches any run buffer. -/
theorem mouseHandle_click_frame {s : CState} {e : RawEvent} {x y : ℚ}
    {r : CState × List OutRec} (htype : e.type = "click")
    (h : mouseHandle s e x y = .ok r) :
    r.1.typedCharBuffer = s.typedCharBuffer ∧
    r.1.lastTypedCharTs = s.lastTypedCharTs ∧
    r.1.mouseMoveBuffer = s.mouseMoveBuffer ∧
    r.1.lastMouseMoveTs = s.lastMouseMoveTs ∧
    r.1.mouseScrollBuffer = s.mouseScrollBuffer ∧
    r.1.lastMouseScrollTs = s.lastMouseScrollTs := by
  unfold mouseHandle at h
  rw [if_pos htype] at h
  repeat' (first | split at h | dsimp only at h)
  all_goals try (simp only [Except.ok.injEq] at h; subst h; simp)
  all_goals simp at h

/-- The mouse-move branch: appends the event to the move buffer (to the
old buffer or to a freshly flushed one), sets the tracker to the event
timestamp, and touches nothing else; its own emissions carry no
press/release weight. -/
theorem mouseHandle_move_spec {s : CState} {e : RawEvent} {x y : ℚ}
    {r : CState × List OutRec} (htype : e.type = "move")
    (h : mouseHandle s e x y = .ok r) :
    r.1.pending = s.pending ∧
    r.1.typedCharBuffer = s.typedCharBuffer ∧
    r.1.lastTypedCharTs = s.lastTypedCharTs ∧
    r.1.mouseScrollBuffer = s.mouseScrollBuffer ∧
    r.1.lastMouseScrollTs = s.lastMouseScrollTs ∧
    (∃ pre, r.1.mouseMoveBuffer = pre ++ [e] ∧
      (pre = s.mouseMoveBuffer ∨ pre = [])) ∧
    r.1.lastMouseMoveTs = e.ts ∧
    sumW r.2 = 0 := by
  unfold mouseHandle at h
  rw [if_neg (by rw [htype]; decide), if_pos htype] at h
  split at h
  · injection h with h1
    subst h1
    exact ⟨rfl, rfl, rfl, rfl, rfl, ⟨s.mouseMoveBuffer, rfl, Or.inl rfl⟩,
      rfl, rfl⟩
  · rcases hm : flushMouseMoveBuffer s with u | ⟨s2, o⟩
    · rw [hm] at h; simp at h
    rw [hm] at h
    dsimp only at h
    injection h with h1
    subst h1
    obtain ⟨f1, f2, f3, f4, f5, f6, f7⟩ := flushMove_frame hm
    refine ⟨f1, f2, f3, f4, f5, ⟨s2.mouseMoveBuffer, rfl, Or.inr f6⟩, rfl, ?_⟩
    rcases f7 with ⟨_, hr⟩ | ⟨_, t, a, b, c, d, du, n, hsh⟩
    · rw [Prod.mk.injEq] at hr
      dsimp only
      rw [hr.2]
      rfl
    · dsimp only
      rw [show (s2, o).2 = o from rfl] at hsh
      rw [hsh]
      rfl

/-- The mouse-scroll branch, symmetric to the move branch. -/
theorem mouseHandle_scroll_spec {s : CState} {e : RawEvent} {x y : ℚ}
    {r : CState × List OutRec} (htype : e.type = "scroll")
    (h : mouseHandle s e x y = .ok r) :
    r.1.pending = s.pending ∧
    r.1.typedCharBuffer = s.typedCharBuffer ∧
    r.1.lastTypedCharTs = s.lastTypedCharTs ∧
    r.1.mouseMoveBuffer = s.mouseMoveBuffer ∧
    r.1.lastMouseMoveTs = s.lastMouseMoveTs ∧
    (∃ pre, r.1.mouseScrollBuffer = pre ++ [e] ∧
      (pre = s.mouseScrollBuffer ∨ pre = [])) ∧
    r.1.lastMouseScrollTs = e.ts ∧
    sumW r.2 = 0 := by
  unfold mouseHandle at h
  rw [if_neg (by rw [htype]; decide), if_neg (by rw [htype]; decide),
    if_pos htype] at h
  split at h
  · injection h with h1
    subst h1
    exact ⟨rfl, rfl, rfl, rfl, rfl, ⟨s.mouseScrollBuffer, rfl, Or.inl rfl⟩,
      rfl, rfl⟩
  · rcases hm : flushMouseScrollBuffer s with u | ⟨s2, o⟩
    · rw [hm] at h; simp at h
    rw [hm] at h
    dsimp only at h
    injection h with h1
    subst h1
    obtain ⟨f1, f2, f3, f4, f5, f6, f7⟩ := flushScroll_frame hm
    refine ⟨f1, f2, f3, f4, f5, ⟨s2.mouseScrollBuffer, rfl, Or.inr f6⟩, rfl, ?_⟩
    rcases f7 with ⟨_, hr⟩ | ⟨_, t, dx, dy, du, n, hsh⟩
    · rw [Prod.mk.injEq] at hr
      dsimp only
      rw [hr.2]
      rfl
    · dsimp only
      rw [show (s2, o).2 = o from rfl] at hsh
      rw [hsh]
      rfl

/-- The mouse branch on an unknown mouse event type: pure pass-through. -/
theorem mouseHandle_other {s : CState} {e : RawEvent} {x y : ℚ}
    (h1 : e.type ≠ "click") (h2 : e.type ≠ "move") (h3 : e.type ≠ "scroll") :
    mouseHandle s e x y = .ok (s, [.raw e]) := by
  unfold mouseHandle
  rw [if_neg h1, if_neg h2, if_neg h3]

/-- Inversion of one step of `runFrom`. -/
theorem runFrom_cons {s0 : CState} {e : RawEvent} {rest : List RawEvent}
    {s : CState} {out : List OutRec}
    (h : runFrom s0 (e :: rest) = .ok (s, out)) :
    ∃ s1 o1 o2, processEvent s0 e = .ok (s1, o1) ∧
      runFrom s1 rest = .ok (s, o2) ∧ out = o1 ++ o2 := by
  unfold runFrom at h
  rcases hP : processEvent s0 e with u | ⟨s1, o1⟩
  · rw [hP] at h; simp at h
  rw [hP] at h
  dsimp only at h
  rcases hR : runFrom s1 rest with u | ⟨s2, o2⟩
  · rw [hR] at h; simp at h
  rw [hR] at h
  dsimp only at h
  injection h with h1
  rw [Prod.mk.injEq] at h1
  obtain ⟨h2, h3⟩ := h1
  subst h2 h3
  exact ⟨s1, o1, o2, rfl, hR, rfl⟩

/-- At most one of the three run buffers is non-empty. -/
def AtMostOneBuffer (s : CState) : Prop :=
  (s.typedCharBuffer ≠ [] → s.mouseMoveBuffer = [] ∧ s.mouseScrollBuffer = []) ∧
  (s.mouseMoveBuffer ≠ [] → s.mouseScrollBuffer = [])

/-- Every successful `process_event` call leaves at most one run buffer
non-empty, whatever the starting state was. -/
theorem processEvent_atMostOne {s : CState} {e : RawEvent} {s2 : CState}
    {out : List OutRec} (h : processEvent s e = .ok (s2, out)) :
    AtMostOneBuffer s2 := by
  unfold processEvent at h
  rcases hE : entryFlush s e with u | ⟨s4, o1⟩
  · rw [hE] at h; simp at h
  rw [hE] at h
  dsimp only at h
  obtain ⟨a1, a2, a3, a4, a5, a6, a7, a8, a9⟩ := entryFlush_spec hE
  by_cases hdev : e.device = "keyboard"
  · rw [if_pos hdev] at h
    rcases hkey : e.key with _ | k
    · rw [hkey] at h; simp at h
    rw [hkey] at h
    dsimp only at h
    injection h with h1
    rw [Prod.mk.injEq] at h1
    obtain ⟨h2, h3⟩ := h1
    subst h2
    obtain ⟨g1, g2, g3, g4⟩ := kbHandle_frame s4 e k
    have hmv : s4.mouseMoveBuffer = [] := by
      rcases a7 with ⟨hm, _⟩ | hm
      · rw [hdev] at hm; exact absurd hm (by decide)
      · exact hm
    have hsc : s4.mouseScrollBuffer = [] := by
      rcases a8 with ⟨hm, _⟩ | hm
      · rw [hdev] at hm; exact absurd hm (by decide)
      · exact hm
    exact ⟨fun _ => ⟨g1.trans hmv, g3.trans hsc⟩,
      fun _ => g3.trans hsc⟩
  · rw [if_neg hdev] at h
    by_cases hdm : e.device = "mouse"
    · rw [if_pos hdm] at h
      have htyped : s4.typedCharBuffer = [] := by
        rcases a6 with ⟨hm, _⟩ | hm
        · exact absurd hm hdev
        · exact hm
      rcases hx : e.x with _ | xv
      · rw [hx] at h; simp at h
      rcases hy : e.y with _ | yv
      · rw [hx, hy] at h; simp at h
      rw [hx, hy] at h
      dsimp only at h
      rcases hmh : mouseHandle s4 e xv yv with u | ⟨sr, orr⟩
      · rw [hmh] at h; simp at h
      rw [hmh] at h
      dsimp only at h
      injection h with h1
      rw [Prod.mk.injEq] at h1
      obtain ⟨h2, h3⟩ := h1
      subst h2
      by_cases ht1 : e.type = "click"
      · obtain ⟨g1, g2, g3, g4, g5, g6⟩ := mouseHandle_click_frame ht1 hmh
        have hmv : s4.mouseMoveBuffer = [] := by
          rcases a7 with ⟨_, hm⟩ | hm
          · rw [ht1] at hm; exact absurd hm (by decide)
          · exact hm
        have hsc : s4.mouseScrollBuffer = [] := by
          rcases a8 with ⟨_, hm⟩ | hm
          · rw [ht1] at hm; exact absurd hm (by decide)
          · exact hm
        exact ⟨fun _ => ⟨g3.trans hmv, g5.trans hsc⟩, fun _ => g5.trans hsc⟩
      · by_cases ht2 : e.type = "move"
        · obtain ⟨g1, g2, g3, g4, g5, g6, g7, g8⟩ := mouseHandle_move_spec ht2 hmh
          have hsc : s4.mouseScrollBuffer = [] := by
            rcases a8 with ⟨_, hm⟩ | hm
            · rw [ht2] at hm; exact absurd hm (by decide)
            · exact hm
          refine ⟨fun habs => absurd (g2.trans htyped) habs, fun _ => g4.trans hsc⟩
        · by_cases ht3 : e.type = "scroll"
          · obtain ⟨g1, g2, g3, g4, g5, g6, g7, g8⟩ :=
              mouseHandle_scroll_spec ht3 hmh
            have hmv : s4.mouseMoveBuffer = [] := by
              rcases a7 with ⟨_, hm⟩ | hm
              · exact absurd hm ht2
              · exact hm
            exact ⟨fun habs => absurd (g2.trans htyped) habs,
              fun habs => absurd (g4.trans hmv) habs⟩
          · rw [mouseHandle_other ht1 ht2 ht3] at hmh
            injection hmh with h4
            rw [Prod.mk.injEq] at h4
            obtain ⟨h5, h6⟩ := h4
            subst h5
            have hmv : s4.mouseMoveBuffer = [] := by
              rcases a7 with ⟨_, hm⟩ | hm
              · exact absurd hm ht2
              · exact hm
            have hsc : s4.mouseScrollBuffer = [] := by
              rcases a8 with ⟨_, hm⟩ | hm
              · exact absurd hm ht3
              · exact hm
            exact ⟨fun habs => absurd htyped.symm (fun hh => habs hh.symm),
              fun _ => hsc⟩
    · rw [if_neg hdm] at h
      injection h with h1
      rw [Prod.mk.injEq] at h1
      obtain ⟨h2, h3⟩ := h1
      subst h2
      have htyped : s4.typedCharBuffer = [] := by
        rcases a6 with ⟨hm, _⟩ | hm
        · exact absurd hm hdev
        · exact hm
      have hmv : s4.mouseMoveBuffer = [] := by
        rcases a7 with ⟨hm, _⟩ | hm
        · exact absurd hm hdm
        · exact hm
      have hsc : s4.mouseScrollBuffer = [] := by
        rcases a8 with ⟨hm, _⟩ | hm
        · exact absurd hm hdm
        · exact hm
      exact ⟨fun habs => absurd htyped habs, fun _ => hsc⟩

/-- **C9** At most one run buffer open at a time: after every successful
`process_event` call — from any state — at most one of the typed-char,
mouse-move and mouse-scroll buffers is non-empty, because the call
flushes the two buffers its event does not continue before appending;
consequently a state with two non-empty buffers is unreachable in any
run from the fresh state. -/
theorem C9_at_most_one_buffer_open :
    (∀ (s : CState) (e : RawEvent) (s2 : CState) (out : List OutRec),
      processEvent s e = .ok (s2, out) → AtMostOneBuffer s2) ∧
    (∀ (es : List RawEvent) (s : CState) (out : List OutRec),
      runEvents es = .ok (s, out) → AtMostOneBuffer s) := by
  have hrun : ∀ (es : List RawEvent) (s0 s : CState) (out : List OutRec),
      runFrom s0 es = .ok (s, out) → AtMostOneBuffer s0 → AtMostOneBuffer s := by
    intro es
    induction es with
    | nil =>
      intro s0 s out h h0
      unfold runFrom at h
      injection h with h1
      rw [Prod.mk.injEq] at h1
      exact h1.1 ▸ h0
    | cons e rest ih =>
      intro s0 s out h h0
      obtain ⟨s1, o1, o2, hP, hR, _⟩ := runFrom_cons h
      exact ih s1 s o2 hR (processEvent_atMostOne hP)
  refine ⟨fun s e s2 out h => processEvent_atMostOne h, fun es s out h => ?_⟩
  exact hrun es initState s out h
    ⟨fun hh => absurd rfl hh, fun hh => absurd rfl hh⟩

def pressAW : RawEvent :=
  { ts := 0, device := "keyboard", type := "press", key := some "a" }

def sAfterPressA : CState :=
  { pending := [(PendKey.kb "a", pressAW)], typedCharBuffer := [],
    lastTypedCharTs := 0, mouseMoveBuffer := [], lastMouseMoveTs := 0,
    mouseScrollBuffer := [], lastMouseScrollTs := 0 }

theorem C9_at_most_one_buffer_open_witness :
    AtMostOneBuffer sAfterPressA ∧ AtMostOneBuffer sAfterPressA :=
  ⟨C9_at_most_one_buffer_open.1 initState pressAW sAfterPressA [] (by decide),
   C9_at_most_one_buffer_open.2 [pressAW] sAfterPressA [] (by decide)⟩

theorem ratFloor_eq_intFloor (q : ℚ) : q.floor = ⌊q⌋ := by
  rw [Rat.floor_def', Rat.floor_def]

/-- Anything strictly above a half-integer rounds up past it. -/
theorem roundHalfEven_ge {q : ℚ} {k : ℤ} (h : (k : ℚ) + 1/2 < q) :
    k + 1 ≤ roundHalfEven q := by
  unfold roundHalfEven
  rw [ratFloor_eq_intFloor]
  have hfl : (⌊q⌋ : ℚ) ≤ q := Int.floor_le q
  have hfu : q < ⌊q⌋ + 1 := Int.lt_floor_add_one q
  by_cases h1 : q - (⌊q⌋ : ℚ) < 1/2
  · rw [if_pos h1]
    have : (k : ℚ) < (⌊q⌋ : ℚ) := by linarith
    exact_mod_cast Int.add_one_le_of_lt (by exact_mod_cast this)
  · rw [if_neg h1]
    have hk : (k : ℚ) < (⌊q⌋ : ℚ) + 1/2 := by linarith
    have hkle : k ≤ ⌊q⌋ := by
      have : (k : ℚ) < (⌊q⌋ : ℚ) + 1 := by linarith
      exact_mod_cast Int.lt_add_one_iff.mp (by exact_mod_cast this)
    by_cases h2 : 1/2 < q - (⌊q⌋ : ℚ)
    · rw [if_pos h2]
      omega
    · rw [if_neg h2]
      have htie : q - (⌊q⌋ : ℚ) = 1/2 := le_antisymm (not_lt.mp h2) (not_lt.mp h1)
      have hkq : (k : ℚ) < (⌊q⌋ : ℚ) := by linarith
      have : k + 1 ≤ ⌊q⌋ := Int.add_one_le_of_lt (by exact_mod_cast hkq)
      by_cases h3 : ⌊q⌋ % 2 = 0
      · rw [if_pos h3]; omega
      · rw [if_neg h3]; omega

/-- Any excess over the click threshold strictly larger than half of the
rounding quantum survives `round5`. -/
theorem round5_gt {ε : ℚ} (hε : 1/200000 < ε) :
    KEY_CLICK_MAX_DELTA < round5 (KEY_CLICK_MAX_DELTA + ε) := by
  have h : ((70000 : ℤ) : ℚ) + 1/2 < (KEY_CLICK_MAX_DELTA + ε) * 100000 := by
    unfold KEY_CLICK_MAX_DELTA
    push_cast
    linarith
  have h2 := roundHalfEven_ge h
  unfold round5 KEY_CLICK_MAX_DELTA
  rw [lt_div_iff (by norm_num : (0:ℚ) < 100000)]
  have : ((70001 : ℤ) : ℚ) ≤ (roundHalfEven ((KEY_CLICK_MAX_DELTA + ε) * 100000) : ℚ) := by
    exact_mod_cast h2
  unfold KEY_CLICK_MAX_DELTA at this
  linarith

/-- The flushing prelude is a no-op on a state whose three buffers are
all empty. -/
theorem entryFlush_empty {s : CState} (e : RawEvent)
    (h1 : s.typedCharBuffer = []) (h2 : s.mouseMoveBuffer = [])
    (h3 : s.mouseScrollBuffer = []) : entryFlush s e = .ok (s, []) := by
  unfold entryFlush
  have hT : flushTypedCharBuffer s = (s, []) := flushTyped_nil h1
  have hM : flushMouseMoveBuffer s = .ok (s, []) := by
    unfold flushMouseMoveBuffer; rw [h2]
  have hS : flushMouseScrollBuffer s = .ok (s, []) := by
    unfold flushMouseScrollBuffer; rw [h3]
  have c1 : (if e.device ≠ "keyboard" ∨ is_char_key (e.key.getD "") = false then
      flushTypedCharBuffer s else (s, [])) = (s, []) := by
    by_cases hc : (e.device ≠ "keyboard" ∨ is_char_key (e.key.getD "") = false)
    · rw [if_pos hc, hT]
    · rw [if_neg hc]
  rw [c1]
  dsimp only
  have c2 : (if e.device ≠ "mouse" ∨ e.type ≠ "move" then
      flushMouseMoveBuffer s else .ok (s, [])) = .ok (s, []) := by
    by_cases hc : (e.device ≠ "mouse" ∨ e.type ≠ "move")
    · rw [if_pos hc, hM]
    · rw [if_neg hc]
  rw [c2]
  dsimp only
  have c3 : (if e.device ≠ "mouse" ∨ e.type ≠ "scroll" then
      flushMouseScrollBuffer s else .ok (s, [])) = .ok (s, []) := by
    by_cases hc : (e.device ≠ "mouse" ∨ e.type ≠ "scroll")
    · rw [if_pos hc, hS]
    · rw [if_neg hc]
  rw [c3]
  dsimp only
  have hfa : flushAllBuffers s e.ts = .ok (s, []) := by
    unfold flushAllBuffers
    have k1 : ¬(s.typedCharBuffer ≠ [] ∧
        e.ts - s.lastTypedCharTs > TYPING_MAX_INTERKEY_DELTA) := by
      intro hand; exact hand.1 h1
    rw [if_neg k1]
    dsimp only
    have k2 : ¬(s.mouseMoveBuffer ≠ [] ∧
        e.ts - s.lastMouseMoveTs > MOUSE_SEQUENCE_MAX_DELTA) := by
      intro hand; exact hand.1 h2
    rw [if_neg k2]
    dsimp only
    have k3 : ¬(s.mouseScrollBuffer ≠ [] ∧
        e.ts - s.lastMouseScrollTs > MOUSE_SEQUENCE_MAX_DELTA) := by
      intro hand; exact hand.1 h3
    rw [if_neg k3]
    rfl
  rw [hfa]
  rfl

def enterPress : RawEvent :=
  { ts := 0, device := "keyboard", type := "press", key := some "Key.enter" }

def enterRel (t : ℚ) : RawEvent :=
  { ts := t, device := "keyboard", type := "release", key := some "Key.enter" }

def sEnterPress : CState :=
  { pending := [(PendKey.kb "Key.enter", enterPress)], typedCharBuffer := [],
    lastTypedCharTs := 0, mouseMoveBuffer := [], lastMouseMoveTs := 0,
    mouseScrollBuffer := [], lastMouseScrollTs := 0 }

/-- **C2 counterexample** The claim as stated is false: for
ε = 10⁻⁶ > 0, a press at t = 0 and release at
t = `KEY_CLICK_MAX_DELTA` + ε still produce exactly one `key_click`
(and not two standalone pass-through records), because the duration is
rounded to 5 decimal places before the threshold comparison and
`round5(0.700001) = 0.7`. -/
theorem C2_click_boundary_counterexample :
    runFin [enterPress, enterRel (KEY_CLICK_MAX_DELTA + 1/1000000)] =
      .ok [.keyClick 0 "Key.enter" KEY_CLICK_MAX_DELTA] ∧
    runFin [enterPress, enterRel (KEY_CLICK_MAX_DELTA + 1/1000000)] ≠
      .ok [.raw enterPress, .raw (enterRel (KEY_CLICK_MAX_DELTA + 1/1000000))] := by
  constructor
  · decide
  · decide

/-- **C2 (amended)** Click classification boundary with rounding: a
press of the non-character key `Key.enter` at t = 0 with the release at
t = `KEY_CLICK_MAX_DELTA` yields exactly one `key_click`; a release at
t = `KEY_CLICK_MAX_DELTA` + ε yields the press and the release as two
standalone pass-through records whenever ε exceeds half the rounding
quantum (ε > 5·10⁻⁶), since the duration is rounded to 5 decimal places
before being compared with the threshold. -/
theorem C2_click_classification_boundary :
    runFin [enterPress, enterRel KEY_CLICK_MAX_DELTA] =
      .ok [.keyClick 0 "Key.enter" KEY_CLICK_MAX_DELTA] ∧
    ∀ ε : ℚ, 1/200000 < ε →
      runFin [enterPress, enterRel (KEY_CLICK_MAX_DELTA + ε)] =
        .ok [.raw enterPress, .raw (enterRel (KEY_CLICK_MAX_DELTA + ε))] := by
  constructor
  · decide
  · intro ε hε
    have h1 : processEvent initState enterPress = .ok (sEnterPress, []) := by
      decide
    have hdur : ¬(round5 (KEY_CLICK_MAX_DELTA + ε - 0) ≤ KEY_CLICK_MAX_DELTA) := by
      rw [sub_zero]
      exact not_le.mpr (round5_gt hε)
    have h2 : processEvent sEnterPress (enterRel (KEY_CLICK_MAX_DELTA + ε)) =
        .ok (initState,
          [.raw enterPress, .raw (enterRel (KEY_CLICK_MAX_DELTA + ε))]) := by
      unfold processEvent
      rw [entryFlush_empty _ rfl rfl rfl]
      dsimp only [enterRel]
      rw [if_pos rfl]
      unfold kbHandle
      dsimp only
      rw [if_neg (show ¬("release" = "press") by decide), if_pos rfl]
      rw [show lookupPend sEnterPress.pending (PendKey.kb "Key.enter") =
        some enterPress by decide]
      dsimp only
      rw [show enterPress.ts = 0 from rfl]
      rw [if_neg hdur]
      rfl
    have h3 : finalize initState = .ok (initState, []) := by decide
    show runFin [enterPress, enterRel (KEY_CLICK_MAX_DELTA + ε)] = _
    simp only [runFin, runEvents, runFrom, h1, h2, h3]
    rfl

theorem C2_click_classification_boundary_witness :
    runFin [enterPress, enterRel (KEY_CLICK_MAX_DELTA + 1/100)] =
      .ok [.raw enterPress, .raw (enterRel (KEY_CLICK_MAX_DELTA + 1/100))] :=
  C2_click_classification_boundary.2 (1/100) (by norm_num)

theorem join_chars_length (l : List TypedChar) :
    (String.join (l.map (fun item => item.char))).length = charlen l := by
  rw [join_length, List.map_map]
  rfl

theorem charlen_single {l : List TypedChar}
    (h : ∀ el ∈ l, el.char.length = 1) : charlen l = l.length := by
  induction l with
  | nil => rfl
  | cons hd tl ih =>
    unfold charlen at *
    simp only [List.map_cons, List.sum_cons, List.length_cons]
    rw [h hd (List.mem_cons_self _ _),
      ih (fun el hel => h el (List.mem_cons_of_mem _ hel))]
    omega

def sC5 : CState :=
  { pending := [], typedCharBuffer := [⟨"a", 0, 0⟩, ⟨"b", 1/1000000, 0⟩],
    lastTypedCharTs := 1/1000000, mouseMoveBuffer := [], lastMouseMoveTs := 0,
    mouseScrollBuffer := [], lastMouseScrollTs := 0 }

/-- **C5 counterexample** The claim as stated is false: flushing the
buffer `[{char a, ts 0, dur 0}, {char b, ts 10⁻⁶, dur 0}]` writes
`duration = 0`, while (last press time + last duration) − first press
time is 10⁻⁶ ≠ 0 — the written duration is that difference rounded to 5
decimal places, not the exact difference. -/
theorem C5_flush_counterexample :
    flushTypedCharBuffer sC5 =
      ({ sC5 with typedCharBuffer := [], lastTypedCharTs := 0 },
       [OutRec.typedString 0 "ab" 0 2]) ∧
    (0 : ℚ) ≠ (1/1000000 : ℚ) + 0 - 0 := by
  constructor
  · decide
  · norm_num

/-- **C5 (amended)** Typed-string flush record contents: flushing a
non-empty typed-char buffer whose chars are single characters emits
exactly one `typed_string` record with the buffered characters joined
in append order, timestamp equal to the first element's press time,
duration equal to (last press time + last duration − first press time)
rounded to 5 decimal places, and `num_chars` equal to the number of
buffered elements; flushing an empty buffer emits nothing. -/
theorem C5_typed_string_flush_contents (s : CState) (first : TypedChar)
    (rest : List TypedChar) (hb : s.typedCharBuffer = first :: rest)
    (hsingle : ∀ el ∈ s.typedCharBuffer, el.char.length = 1) :
    flushTypedCharBuffer s =
      ({ s with typedCharBuffer := [], lastTypedCharTs := 0 },
       [OutRec.typedString first.ts
         (String.join ((first :: rest).map (fun item => item.char)))
         (round5 (((rest.getLastD first).ts + (rest.getLastD first).duration)
           - first.ts))
         (first :: rest).length]) ∧
    (∀ s2 : CState, s2.typedCharBuffer = [] → flushTypedCharBuffer s2 = (s2, [])) := by
  constructor
  · rw [flushTyped_cons hb]
    have hlen :
        (String.join ((first :: rest).map (fun item => item.char))).length =
          (first :: rest).length := by
      rw [join_chars_length]
      exact charlen_single (hb ▸ hsingle)
    rw [hlen]
  · exact fun s2 h => flushTyped_nil h

def sC5W : CState :=
  { pending := [], typedCharBuffer := [⟨"h", 0, 1/100⟩, ⟨"i", 1/10, 2/100⟩],
    lastTypedCharTs := 1/10, mouseMoveBuffer := [], lastMouseMoveTs := 0,
    mouseScrollBuffer := [], lastMouseScrollTs := 0 }

theorem C5_typed_string_flush_contents_witness :
    flushTypedCharBuffer sC5W =
      ({ sC5W with typedCharBuffer := [], lastTypedCharTs := 0 },
       [OutRec.typedString (⟨"h", 0, 1/100⟩ : TypedChar).ts
         (String.join (([⟨"h", 0, 1/100⟩, ⟨"i", 1/10, 2/100⟩] :
           List TypedChar).map (fun item => item.char)))
         (round5 ((([⟨"i", 1/10, 2/100⟩] :
             List TypedChar).getLastD ⟨"h", 0, 1/100⟩).ts +
           (([⟨"i", 1/10, 2/100⟩] :
             List TypedChar).getLastD ⟨"h", 0, 1/100⟩).duration -
           (⟨"h", 0, 1/100⟩ : TypedChar).ts))
         ([⟨"h", 0, 1/100⟩, ⟨"i", 1/10, 2/100⟩] : List TypedChar).length]) ∧
    (∀ s2 : CState, s2.typedCharBuffer = [] →
      flushTypedCharBuffer s2 = (s2, [])) :=
  C5_typed_string_flush_contents sC5W ⟨"h", 0, 1/100⟩ [⟨"i", 1/10, 2/100⟩]
    rfl (by decide)

/-- Typed-char buffer gap invariant: consecutive elements are at most
`TYPING_MAX_INTERKEY_DELTA` apart (press timestamps), and the tracker
`last_typed_char_ts` equals the last element's press timestamp. -/
def TypedGapInv (s : CState) : Prop :=
  List.Chain' (fun a b => b.ts - a.ts ≤ TYPING_MAX_INTERKEY_DELTA)
    s.typedCharBuffer ∧
  ∀ last, s.typedCharBuffer.getLast? = some last →
    s.lastTypedCharTs = last.ts

theorem gapInv_congr {s t : CState} (h1 : t.typedCharBuffer = s.typedCharBuffer)
    (h2 : t.lastTypedCharTs = s.lastTypedCharTs) (hinv : TypedGapInv s) :
    TypedGapInv t := by
  unfold TypedGapInv at *
  rw [h1, h2]
  exact hinv

theorem gapInv_empty {s : CState} (h : s.typedCharBuffer = []) :
    TypedGapInv s := by
  unfold TypedGapInv
  rw [h]
  exact ⟨List.chain'_nil, fun last hl => by simp at hl⟩

theorem gapInv_append {s t : CState} (hinv : TypedGapInv s) (elem : TypedChar)
    (ht : t.typedCharBuffer = s.typedCharBuffer ++ [elem])
    (hlt : t.lastTypedCharTs = elem.ts)
    (hgap : s.typedCharBuffer = [] ∨
      elem.ts - s.lastTypedCharTs ≤ TYPING_MAX_INTERKEY_DELTA) :
    TypedGapInv t := by
  obtain ⟨hc, hl⟩ := hinv
  constructor
  · rw [ht]
    rcases hgap with he | hg
    · rw [he]
      simp
    · rw [List.chain'_append]
      refine ⟨hc, List.chain'_singleton _, fun x hx y hy => ?_⟩
      simp only [List.head?_cons, Option.mem_def, Option.some.injEq] at hy
      subst hy
      have hx2 := hl x hx
      rw [← hx2]
      exact hg
  · intro last hl2
    rw [ht, List.getLast?_concat] at hl2
    injection hl2 with hl3
    rw [hlt, hl3]

theorem kbHandle_gapInv (s : CState) (e : RawEvent) (k : String)
    (hinv : TypedGapInv s) : TypedGapInv (kbHandle s e k).1 := by
  unfold kbHandle
  dsimp only
  split
  · split
    · exact gapInv_congr rfl rfl hinv
    · exact gapInv_congr rfl rfl hinv
  · split
    · split
      · next press heq =>
        split
        · split
          · split
            · next hcond =>
              exact gapInv_append (gapInv_congr rfl rfl hinv) _ rfl rfl hcond
            · rcases hF : flushTypedCharBuffer
                  { s with pending := erasePend s.pending (PendKey.kb k) }
                with ⟨s2, o⟩
              dsimp only
              have f2 := (flushTyped_fields
                { s with pending := erasePend s.pending (PendKey.kb k) }).2.1
              rw [hF] at f2
              exact gapInv_append (gapInv_empty f2) _ rfl rfl (Or.inl f2)
          · rcases hF : flushTypedCharBuffer
                { s with pending := erasePend s.pending (PendKey.kb k) }
              with ⟨s2, o⟩
            dsimp only
            have f2 := (flushTyped_fields
              { s with pending := erasePend s.pending (PendKey.kb k) }).2.1
            rw [hF] at f2
            exact gapInv_empty f2
        · exact gapInv_congr rfl rfl hinv
      · exact gapInv_congr rfl rfl hinv
    · exact gapInv_congr rfl rfl hinv

theorem mouseHandle_gapInv {s : CState} {e : RawEvent} {x y : ℚ}
    {r : CState × List OutRec} (h : mouseHandle s e x y = .ok r)
    (hinv : TypedGapInv s) : TypedGapInv r.1 := by
  by_cases h1 : e.type = "click"
  · obtain ⟨g1, g2, _⟩ := mouseHandle_click_frame h1 h
    exact gapInv_congr g1 g2 hinv
  · by_cases h2 : e.type = "move"
    · obtain ⟨_, g2, g3, _⟩ := mouseHandle_move_spec h2 h
      exact gapInv_congr g2 g3 hinv
    · by_cases h3 : e.type = "scroll"
      · obtain ⟨_, g2, g3, _⟩ := mouseHandle_scroll_spec h3 h
        exact gapInv_congr g2 g3 hinv
      · rw [mouseHandle_other h1 h2 h3] at h
        injection h with h4
        subst h4
        exact gapInv_congr rfl rfl hinv

theorem processEvent_gapInv {s : CState} {e : RawEvent} {s2 : CState}
    {out : List OutRec} (h : processEvent s e = .ok (s2, out))
    (hinv : TypedGapInv s) : TypedGapInv s2 := by
  unfold processEvent at h
  rcases hE : entryFlush s e with u | ⟨s4, o1⟩
  · rw [hE] at h; simp at h
  rw [hE] at h
  dsimp only at h
  obtain ⟨a1, a2, a3, a4, a5, a6, a7, a8, a9⟩ := entryFlush_spec hE
  have hinv4 : TypedGapInv s4 := by
    rcases a2 with ⟨e1, e2⟩ | e1
    · exact gapInv_congr e1 e2 hinv
    · exact gapInv_empty e1
  by_cases hdev : e.device = "keyboard"
  · rw [if_pos hdev] at h
    rcases hkey : e.key with _ | k
    · rw [hkey] at h; simp at h
    rw [hkey] at h
    dsimp only at h
    injection h with h1
    rw [Prod.mk.injEq] at h1
    obtain ⟨h2, h3⟩ := h1
    subst h2
    exact kbHandle_gapInv s4 e k hinv4
  · rw [if_neg hdev] at h
    by_cases hdm : e.device = "mouse"
    · rw [if_pos hdm] at h
      rcases hx : e.x with _ | xv
      · rw [hx] at h; simp at h
      rcases hy : e.y with _ | yv
      · rw [hx, hy] at h; simp at h
      rw [hx, hy] at h
      dsimp only at h
      rcases hmh : mouseHandle s4 e xv yv with u | ⟨sr, orr⟩
      · rw [hmh] at h; simp at h
      rw [hmh] at h
      dsimp only at h
      injection h with h1
      rw [Prod.mk.injEq] at h1
      obtain ⟨h2, h3⟩ := h1
      subst h2
      exact mouseHandle_gapInv hmh hinv4
    · rw [if_neg hdm] at h
      injection h with h1
      rw [Prod.mk.injEq] at h1
      obtain ⟨h2, h3⟩ := h1
      subst h2
      exact hinv4

def kbPress (k : String) (t : ℚ) : RawEvent :=
  { ts := t, device := "keyboard", type := "press", key := some k }

def kbRel (k : String) (t : ℚ) : RawEvent :=
  { ts := t, device := "keyboard", type := "release", key := some k }

def sC7 : CState :=
  { pending := [], typedCharBuffer := [⟨"a", 0, 1/100⟩, ⟨"b", 1/2, 1/100⟩],
    lastTypedCharTs := 1/2, mouseMoveBuffer := [], lastMouseMoveTs := 0,
    mouseScrollBuffer := [], lastMouseScrollTs := 0 }

/-- **C7 counterexample** The claim as stated is false: the source sets
`TYPING_MAX_INTERKEY_DELTA = 1.0`, not 0.1 seconds, and a session with
presses 0.5 s apart keeps both clicks in one typed-char buffer whose
inter-element gap 0.5 exceeds the claimed 0.1-second bound. -/
theorem C7_gap_invariant_counterexample :
    TYPING_MAX_INTERKEY_DELTA ≠ 1/10 ∧
    runEvents [kbPress "a" 0, kbRel "a" (1/100), kbPress "b" (1/2),
        kbRel "b" (51/100)] = .ok (sC7, []) ∧
    sC7.typedCharBuffer = [⟨"a", 0, 1/100⟩, ⟨"b", 1/2, 1/100⟩] ∧
    ¬((⟨"b", 1/2, 1/100⟩ : TypedChar).ts -
      (⟨"a", 0, 1/100⟩ : TypedChar).ts ≤ 1/10) := by
  refine ⟨by decide, by decide, rfl, by decide⟩

/-- **C7 (amended)** Typed-char buffer gap invariant with the source's
threshold value: `TYPING_MAX_INTERKEY_DELTA` is 1.0 second (not 0.1),
and in every reachable state of a session the consecutive elements of
the typed-char buffer have press-timestamp gaps of at most
`TYPING_MAX_INTERKEY_DELTA`, each gap having been checked at append
time against the press timestamp of the most recently appended
element. -/
theorem C7_typed_buffer_gap_invariant :
    TYPING_MAX_INTERKEY_DELTA = 1 ∧
    ∀ (es : List RawEvent) (s : CState) (out : List OutRec),
      runEvents es = .ok (s, out) →
      List.Chain' (fun a b => b.ts - a.ts ≤ TYPING_MAX_INTERKEY_DELTA)
        s.typedCharBuffer := by
  refine ⟨rfl, ?_⟩
  have hrun : ∀ (es : List RawEvent) (s0 s : CState) (out : List OutRec),
      runFrom s0 es = .ok (s, out) → TypedGapInv s0 → TypedGapInv s := by
    intro es
    induction es with
    | nil =>
      intro s0 s out h h0
      unfold runFrom at h
      injection h with h1
      rw [Prod.mk.injEq] at h1
      exact h1.1 ▸ h0
    | cons e rest ih =>
      intro s0 s out h h0
      obtain ⟨s1, o1, o2, hP, hR, _⟩ := runFrom_cons h
      exact ih s1 s o2 hR (processEvent_gapInv hP h0)
  intro es s out h
  exact (hrun es initState s out h (gapInv_empty rfl)).1

theorem C7_typed_buffer_gap_invariant_witness :
    List.Chain' (fun a b => b.ts - a.ts ≤ TYPING_MAX_INTERKEY_DELTA)
      sC7.typedCharBuffer :=
  C7_typed_buffer_gap_invariant.2
    [kbPress "a" 0, kbRel "a" (1/100), kbPress "b" (1/2), kbRel "b" (51/100)]
    sC7 [] (by decide)

/-- Records that buffer flushes emit (never clicks or raw pass-throughs). -/
def isFlushRec : OutRec → Prop
  | .typedString _ _ _ _ => True
  | .condensedMove _ _ _ _ _ _ _ => True
  | .condensedScroll _ _ _ _ _ => True
  | _ => False

theorem flushTyped_recs (s : CState) :
    ∀ r ∈ (flushTypedCharBuffer s).2, isFlushRec r := by
  cases hb : s.typedCharBuffer with
  | nil => rw [flushTyped_nil hb]; intro r hr; simp at hr
  | cons first rest =>
    rw [flushTyped_cons hb]
    intro r hr
    simp only [List.mem_singleton] at hr
    subst hr
    trivial

theorem flushMove_recs {s : CState} {r : CState × List OutRec}
    (h : flushMouseMoveBuffer s = .ok r) : ∀ rec ∈ r.2, isFlushRec rec := by
  obtain ⟨_, _, _, _, _, _, f7⟩ := flushMove_frame h
  rcases f7 with ⟨_, hr⟩ | ⟨_, t, a, b, c, d, du, n, hsh⟩
  · rw [Prod.mk.injEq] at hr
    rw [hr.2]
    intro rec hrec
    simp at hrec
  · rw [show (r.1, r.2).2 = r.2 from rfl] at hsh
    rw [hsh]
    intro rec hrec
    simp only [List.mem_singleton] at hrec
    subst hrec
    trivial

theorem flushScroll_recs {s : CState} {r : CState × List OutRec}
    (h : flushMouseScrollBuffer s = .ok r) : ∀ rec ∈ r.2, isFlushRec rec := by
  obtain ⟨_, _, _, _, _, _, f7⟩ := flushScroll_frame h
  rcases f7 with ⟨_, hr⟩ | ⟨_, t, dx, dy, du, n, hsh⟩
  · rw [Prod.mk.injEq] at hr
    rw [hr.2]
    intro rec hrec
    simp at hrec
  · rw [show (r.1, r.2).2 = r.2 from rfl] at hsh
    rw [hsh]
    intro rec hrec
    simp only [List.mem_singleton] at hrec
    subst hrec
    trivial

theorem flushAll_recs {s : CState} {ts : ℚ} {s4 : CState} {o : List OutRec}
    (h : flushAllBuffers s ts = .ok (s4, o)) : ∀ r ∈ o, isFlushRec r := by
  unfold flushAllBuffers at h
  rcases hp : (if s.typedCharBuffer ≠ [] ∧
      ts - s.lastTypedCharTs > TYPING_MAX_INTERKEY_DELTA then
      flushTypedCharBuffer s else (s, [])) with ⟨s1, o1⟩
  rw [hp] at h
  dsimp only at h
  rcases hm : (if s1.mouseMoveBuffer ≠ [] ∧
      ts - s1.lastMouseMoveTs > MOUSE_SEQUENCE_MAX_DELTA then
      flushMouseMoveBuffer s1 else .ok (s1, [])) with u | ⟨s2, o2⟩
  · rw [hm] at h; simp at h
  rw [hm] at h
  dsimp only at h
  rcases hc : (if s2.mouseScrollBuffer ≠ [] ∧
      ts - s2.lastMouseScrollTs > MOUSE_SEQUENCE_MAX_DELTA then
      flushMouseScrollBuffer s2 else .ok (s2, [])) with u | ⟨s3, o3⟩
  · rw [hc] at h; simp at h
  rw [hc] at h
  dsimp only at h
  injection h with h1
  rw [Prod.mk.injEq] at h1
  obtain ⟨h2, h3⟩ := h1
  subst h2 h3
  have k1 : ∀ r ∈ o1, isFlushRec r := by
    by_cases hcc : (s.typedCharBuffer ≠ [] ∧
        ts - s.lastTypedCharTs > TYPING_MAX_INTERKEY_DELTA)
    · rw [if_pos hcc] at hp
      have := flushTyped_recs s
      rw [hp] at this
      exact this
    · rw [if_neg hcc] at hp
      rw [Prod.mk.injEq] at hp
      rw [← hp.2]
      intro r hr
      simp at hr
  have k2 : ∀ r ∈ o2, isFlushRec r := by
    by_cases hcc : (s1.mouseMoveBuffer ≠ [] ∧
        ts - s1.lastMouseMoveTs > MOUSE_SEQUENCE_MAX_DELTA)
    · rw [if_pos hcc] at hm
      exact flushMove_recs hm
    · rw [if_neg hcc] at hm
      injection hm with hm1
      rw [Prod.mk.injEq] at hm1
      rw [← hm1.2]
      intro r hr
      simp at hr
  have k3 : ∀ r ∈ o3, isFlushRec r := by
    by_cases hcc : (s2.mouseScrollBuffer ≠ [] ∧
        ts - s2.lastMouseScrollTs > MOUSE_SEQUENCE_MAX_DELTA)
    · rw [if_pos hcc] at hc
      exact flushScroll_recs hc
    · rw [if_neg hcc] at hc
      injection hc with hc1
      rw [Prod.mk.injEq] at hc1
      rw [← hc1.2]
      intro r hr
      simp at hr
  intro r hr
  rcases List.mem_append.mp hr with hr2 | hr3
  · rcases List.mem_append.mp hr2 with hr4 | hr5
    · exact k1 r hr4
    · exact k2 r hr5
  · exact k3 r hr3

theorem entryFlush_recs {s : CState} {e : RawEvent} {s4 : CState}
    {o : List OutRec} (h : entryFlush s e = .ok (s4, o)) :
    ∀ r ∈ o, isFlushRec r := by
  unfold entryFlush at h
  rcases hp : (if e.device ≠ "keyboard" ∨ is_char_key (e.key.getD "") = false then
      flushTypedCharBuffer s else (s, [])) with ⟨s1, o1⟩
  rw [hp] at h
  dsimp only at h
  rcases hm : (if e.device ≠ "mouse" ∨ e.type ≠ "move" then
      flushMouseMoveBuffer s1 else .ok (s1, [])) with u | ⟨s2, o2⟩
  · rw [hm] at h; simp at h
  rw [hm] at h
  dsimp only at h
  rcases hc : (if e.device ≠ "mouse" ∨ e.type ≠ "scroll" then
      flushMouseScrollBuffer s2 else .ok (s2, [])) with u | ⟨s3, o3⟩
  · rw [hc] at h; simp at h
  rw [hc] at h
  dsimp only at h
  rcases hA : flushAllBuffers s3 e.ts with u | ⟨sA, oA⟩
  · rw [hA] at h; simp at h
  rw [hA] at h
  dsimp only at h
  injection h with h1
  rw [Prod.mk.injEq] at h1
  obtain ⟨h2, h3⟩ := h1
  subst h2 h3
  have k1 : ∀ r ∈ o1, isFlushRec r := by
    by_cases hcc : (e.device ≠ "keyboard" ∨ is_char_key (e.key.getD "") = false)
    · rw [if_pos hcc] at hp
      have := flushTyped_recs s
      rw [hp] at this
      exact this
    · rw [if_neg hcc] at hp
      rw [Prod.mk.injEq] at hp
      rw [← hp.2]
      intro r hr
      simp at hr
  have k2 : ∀ r ∈ o2, isFlushRec r := by
    by_cases hcc : (e.device ≠ "mouse" ∨ e.type ≠ "move")
    · rw [if_pos hcc] at hm
      exact flushMove_recs hm
    · rw [if_neg hcc] at hm
      injection hm with hm1
      rw [Prod.mk.injEq] at hm1
      rw [← hm1.2]
      intro r hr
      simp at hr
  have k3 : ∀ r ∈ o3, isFlushRec r := by
    by_cases hcc : (e.device ≠ "mouse" ∨ e.type ≠ "scroll")
    · rw [if_pos hcc] at hc
      exact flushScroll_recs hc
    · rw [if_neg hcc] at hc
      injection hc with hc1
      rw [Prod.mk.injEq] at hc1
      rw [← hc1.2]
      intro r hr
      simp at hr
  have k4 : ∀ r ∈ oA, isFlushRec r := flushAll_recs hA
  intro r hr
  rcases List.mem_append.mp hr with hr2 | hrA
  · rcases List.mem_append.mp hr2 with hr3 | hr4
    · rcases List.mem_append.mp hr3 with hr5 | hr6
      · exact k1 r hr5
      · exact k2 r hr6
    · exact k3 r hr4
  · exact k4 r hrA

/-- Everything still pending when `finalize()` runs is emitted raw. -/
theorem finalize_pending_raws {s sf : CState} {outf : List OutRec}
    (h : finalize s = .ok (sf, outf)) :
    ∀ kv ∈ s.pending, OutRec.raw kv.2 ∈ outf := by
  unfold finalize at h
  rcases hp : flushTypedCharBuffer s with ⟨s1, o1⟩
  rw [hp] at h
  dsimp only at h
  rcases hm : flushMouseMoveBuffer s1 with u | ⟨s2, o2⟩
  · rw [hm] at h; simp at h
  rw [hm] at h
  dsimp only at h
  rcases hc : flushMouseScrollBuffer s2 with u | ⟨s3, o3⟩
  · rw [hc] at h; simp at h
  rw [hc] at h
  dsimp only at h
  injection h with h1
  rw [Prod.mk.injEq] at h1
  obtain ⟨h2, h3⟩ := h1
  subst h2 h3
  intro kv hkv
  have hpend : s3.pending = s.pending := by
    have f1 := (flushTyped_fields s).1
    rw [hp] at f1
    have m1 := (flushMove_frame hm).1
    have c1 := (flushScroll_frame hc).1
    rw [c1, m1, f1]
  rw [List.mem_append]
  right
  rw [hpend]
  exact List.mem_map_of_mem _ hkv

/-- **C10** Moved-click degradation: because the pending identity of a
mouse click includes the exact press coordinates, a release at other
coordinates than its press (here with the press the only pending entry)
is handled as an unmatched release — it is passed through raw as the
last emission of the call, no `mouse_click` record is synthesized, the
press stays pending, and a later `finalize()` emits the pending press
as a standalone raw record. -/
theorem C10_moved_click_degradation
    (s : CState) (e press : RawEvent) (x y px py : ℚ) (b : String)
    (s2 : CState) (out : List OutRec)
    (hdev : e.device = "mouse") (htype : e.type = "click")
    (hx : e.x = some x) (hy : e.y = some y) (hbt : e.button = some b)
    (hpr : e.pressed = some false)
    (hpend : s.pending = [(PendKey.ms b px py, press)])
    (hcoords : ¬(px = x ∧ py = y))
    (h : processEvent s e = .ok (s2, out)) :
    out.getLast? = some (.raw e) ∧
    (∀ r ∈ out, ∀ t xx yy bb d, r ≠ OutRec.mouseClick t xx yy bb d) ∧
    (PendKey.ms b px py, press) ∈ s2.pending ∧
    (∀ sf outf, finalize s2 = .ok (sf, outf) → OutRec.raw press ∈ outf) := by
  have hne : ¬(PendKey.ms b px py = PendKey.ms b x y) := by
    intro hh
    injection hh with h1 h2 h3
    exact hcoords ⟨h2, h3⟩
  have hlook : lookupPend s.pending (PendKey.ms b x y) = none := by
    rw [hpend]
    unfold lookupPend
    rw [if_neg hne]
    rfl
  unfold processEvent at h
  rcases hE : entryFlush s e with u | ⟨s4, o1⟩
  · rw [hE] at h; simp at h
  rw [hE] at h
  dsimp only at h
  rw [if_neg (by rw [hdev]; decide), if_pos hdev, hx, hy] at h
  dsimp only at h
  obtain ⟨a1, a2, a3, a4, a5, a6, a7, a8, a9⟩ := entryFlush_spec hE
  have hmh : mouseHandle s4 e x y = .ok (s4, [.raw e]) := by
    unfold mouseHandle
    rw [if_pos htype, hbt, hpr]
    dsimp only
    rw [if_neg (show ¬(false = true) by decide), a1, hlook]
  rw [hmh] at h
  dsimp only at h
  injection h with h1
  rw [Prod.mk.injEq] at h1
  obtain ⟨h2, h3⟩ := h1
  subst h2 h3
  have hrecs := entryFlush_recs hE
  refine ⟨List.getLast?_concat _, ?_, ?_, ?_⟩
  · intro r hr t xx yy bb d
    rcases List.mem_append.mp hr with hr1 | hr2
    · have := hrecs r hr1
      intro habs
      rw [habs] at this
      exact this
    · simp only [List.mem_singleton] at hr2
      subst hr2
      intro habs
      cases habs
  · rw [a1, hpend]
    exact List.mem_cons_self _ _
  · intro sf outf hfin
    exact finalize_pending_raws hfin (PendKey.ms b px py, press)
      (by rw [a1, hpend]; exact List.mem_cons_self _ _)

def movedPressW : RawEvent :=
  { ts := 0, device := "mouse", type := "click", x := some 0, y := some 0,
    button := some "Button.left", pressed := some true }

def movedRelW : RawEvent :=
  { ts := 1/10, device := "mouse", type := "click", x := some 5, y := some 5,
    button := some "Button.left", pressed := some false }

def sC10 : CState :=
  { pending := [(PendKey.ms "Button.left" 0 0, movedPressW)],
    typedCharBuffer := [], lastTypedCharTs := 0,
    mouseMoveBuffer := [], lastMouseMoveTs := 0,
    mouseScrollBuffer := [], lastMouseScrollTs := 0 }

theorem C10_moved_click_degradation_witness :
    ([OutRec.raw movedRelW] : List OutRec).getLast? = some (.raw movedRelW) ∧
    (∀ r ∈ ([OutRec.raw movedRelW] : List OutRec),
      ∀ t xx yy bb d, r ≠ OutRec.mouseClick t xx yy bb d) ∧
    (PendKey.ms "Button.left" 0 0, movedPressW) ∈ sC10.pending ∧
    (∀ sf outf, finalize sC10 = .ok (sf, outf) →
      OutRec.raw movedPressW ∈ outf) :=
  C10_moved_click_degradation sC10 movedRelW movedPressW 5 5 0 0
    "Button.left" sC10 [OutRec.raw movedRelW] rfl rfl rfl rfl rfl rfl rfl
    (by decide) (by decide)

/-! ## No-event-loss accounting (C1) -/

/-- Data-model hypothesis for C1: a character key maps to a single
character (the spec defines character keys as letters, digits,
punctuation, or the space key). -/
def validKey (e : RawEvent) : Prop :=
  ∀ k, e.key = some k → is_char_key k = true → (to_char k).length = 1

/-- Every stored pending event is a press (weight-1 event). -/
def PendInv (s : CState) : Prop := ∀ kv ∈ s.pending, inW kv.2 = 1

theorem lookupPend_mem {l : List (PendKey × RawEvent)} {k : PendKey}
    {v : RawEvent} (h : lookupPend l k = some v) : ∃ kk, (kk, v) ∈ l := by
  induction l with
  | nil => simp [lookupPend] at h
  | cons kv rest ih =>
    unfold lookupPend at h
    by_cases hc : kv.1 = k
    · rw [if_pos hc] at h
      injection h with h1
      refine ⟨kv.1, ?_⟩
      rw [← h1]
      exact List.mem_cons_self _ _
    · rw [if_neg hc] at h
      obtain ⟨kk, hkk⟩ := ih h
      exact ⟨kk, List.mem_cons_of_mem _ hkk⟩

theorem erasePend_len {l : List (PendKey × RawEvent)} {k : PendKey}
    {v : RawEvent} (h : lookupPend l k = some v) :
    (erasePend l k).length + 1 = l.length := by
  induction l with
  | nil => simp [lookupPend] at h
  | cons kv rest ih =>
    unfold lookupPend at h
    unfold erasePend
    by_cases hc : kv.1 = k
    · rw [if_pos hc]
      rfl
    · rw [if_neg hc] at h
      rw [if_neg hc]
      simp only [List.length_cons]
      rw [← ih h]

theorem erasePend_subset {l : List (PendKey × RawEvent)} {k : PendKey}
    {kv : PendKey × RawEvent} (h : kv ∈ erasePend l k) : kv ∈ l := by
  induction l with
  | nil => simp [erasePend] at h
  | cons kv2 rest ih =>
    unfold erasePend at h
    by_cases hc : kv2.1 = k
    · rw [if_pos hc] at h
      exact List.mem_cons_of_mem _ h
    · rw [if_neg hc] at h
      rcases List.mem_cons.mp h with h1 | h2
      · rw [h1]; exact List.mem_cons_self _ _
      · exact List.mem_cons_of_mem _ (ih h2)

theorem raws_weight {l : List (PendKey × RawEvent)}
    (h : ∀ kv ∈ l, inW kv.2 = 1) :
    sumW (l.map (fun kv => OutRec.raw kv.2)) = l.length := by
  induction l with
  | nil => rfl
  | cons kv rest ih =>
    simp only [List.map_cons, sumW, List.sum_cons, List.length_cons]
    have h1 : outW (OutRec.raw kv.2) = 1 := h kv (List.mem_cons_self _ _)
    rw [show (List.map outW (List.map (fun kv => OutRec.raw kv.2) rest)).sum
      = sumW (rest.map (fun kv => OutRec.raw kv.2)) from rfl]
    rw [h1, ih (fun kv2 hkv2 => h kv2 (List.mem_cons_of_mem _ hkv2))]
    omega

theorem charlen_append (l : List TypedChar) (elem : TypedChar) :
    charlen (l ++ [elem]) = charlen l + elem.char.length := by
  simp [charlen]

theorem kbHandle_weight (s : CState) (e : RawEvent) (k : String)
    (hkey : e.key = some k) (hvk : validKey e) (hdev : e.device = "keyboard")
    (hpi : PendInv s) :
    sumW (kbHandle s e k).2 + 2 * charlen (kbHandle s e k).1.typedCharBuffer +
      (kbHandle s e k).1.pending.length =
      2 * charlen s.typedCharBuffer + s.pending.length + inW e ∧
    PendInv (kbHandle s e k).1 := by
  unfold kbHandle
  dsimp only
  split
  · next htype =>
    have hiw : inW e = 1 := by
      unfold inW
      rw [if_pos (Or.inl ⟨hdev, Or.inl htype⟩)]
    split
    · next stale hfound =>
      obtain ⟨kk, hmem⟩ := lookupPend_mem hfound
      have hstale : inW stale = 1 := hpi (kk, stale) hmem
      have hlen := erasePend_len hfound
      constructor
      · dsimp only
        simp only [sumW, List.map_cons, List.map_nil, List.sum_cons,
          List.sum_nil, outW, List.length_append, List.length_cons,
          List.length_nil]
        rw [hstale, hiw]
        omega
      · intro kv hkv
        dsimp only at hkv
        rcases List.mem_append.mp hkv with h1 | h2
        · exact hpi kv (erasePend_subset h1)
        · simp only [List.mem_singleton] at h2
          rw [h2]
          exact hiw
    · constructor
      · dsimp only
        simp only [sumW, List.map_nil, List.sum_nil, List.length_append,
          List.length_cons, List.length_nil]
        rw [hiw]
        omega
      · intro kv hkv
        dsimp only at hkv
        rcases List.mem_append.mp hkv with h1 | h2
        · exact hpi kv h1
        · simp only [List.mem_singleton] at h2
          rw [h2]
          exact hiw
  · split
    · next htype2 =>
      have hiw : inW e = 1 := by
        unfold inW
        rw [if_pos (Or.inl ⟨hdev, Or.inr htype2⟩)]
      split
      · next press hfound =>
        obtain ⟨kk, hmem⟩ := lookupPend_mem hfound
        have hpress : inW press = 1 := hpi (kk, press) hmem
        have hlen := erasePend_len hfound
        have hpi2 : PendInv { s with pending := erasePend s.pending (PendKey.kb k) } := by
          intro kv hkv
          exact hpi kv (erasePend_subset hkv)
        split
        · next hdur =>
          split
          · next hchar =>
            have hch : (to_char k).length = 1 := hvk k hkey hchar
            split
            · next hcond =>
              constructor
              · dsimp only
                rw [charlen_append, hch, hiw]
                simp only [sumW, List.map_nil, List.sum_nil]
                omega
              · exact hpi2
            · rcases hF : flushTypedCharBuffer
                  { s with pending := erasePend s.pending (PendKey.kb k) }
                with ⟨s2, o⟩
              have hw := flushTyped_weight
                { s with pending := erasePend s.pending (PendKey.kb k) }
              have hf := flushTyped_fields
                { s with pending := erasePend s.pending (PendKey.kb k) }
              rw [hF] at hw hf
              obtain ⟨f1, f2, f3, f4, f5, f6⟩ := hf
              dsimp only at hw f1 f2 ⊢
              constructor
              · rw [charlen_append, hch, hiw, f2, f1]
                rw [f2] at hw
                simp only [charlen, List.map_nil, List.sum_nil] at hw ⊢
                omega
              · intro kv hkv
                rw [f1] at hkv
                exact hpi kv (erasePend_subset hkv)
          · rcases hF : flushTypedCharBuffer
                { s with pending := erasePend s.pending (PendKey.kb k) }
              with ⟨s2, o⟩
            have hw := flushTyped_weight
              { s with pending := erasePend s.pending (PendKey.kb k) }
            have hf := flushTyped_fields
              { s with pending := erasePend s.pending (PendKey.kb k) }
            rw [hF] at hw hf
            obtain ⟨f1, f2, f3, f4, f5, f6⟩ := hf
            dsimp only at hw f1 f2 ⊢
            constructor
            · rw [sumW_append, f2, hiw, f1]
              rw [f2] at hw
              simp only [charlen, sumW, List.map_cons, List.map_nil,
                List.sum_cons, List.sum_nil, outW] at hw ⊢
              omega
            · intro kv hkv
              rw [f1] at hkv
              exact hpi kv (erasePend_subset hkv)
        · constructor
          · dsimp only
            simp only [sumW, List.map_cons, List.map_nil, List.sum_cons,
              List.sum_nil, outW]
            rw [hpress, hiw]
            omega
          · exact hpi2
      · constructor
        · dsimp only
          simp only [sumW, List.map_cons, List.map_nil, List.sum_cons,
            List.sum_nil, outW]
          rw [hiw]
          omega
        · exact hpi
    · next htype htype2 =>
      have hiw : inW e = 0 := by
        unfold inW
        rw [if_neg]
        intro hor
        rcases hor with ⟨_, hpr⟩ | ⟨hm, _⟩
        · rcases hpr with h1 | h1
          · exact htype h1
          · exact htype2 h1
        · rw [hdev] at hm
          exact absurd hm (by decide)
      constructor
      · dsimp only
        simp only [sumW, List.map_nil, List.sum_nil]
        rw [hiw]
        omega
      · exact hpi

theorem mouseHandle_weight {s : CState} {e : RawEvent} {x y : ℚ}
    {r : CState × List OutRec} (h : mouseHandle s e x y = .ok r)
    (hdev : e.device = "mouse") (hpi : PendInv s) :
    sumW r.2 + 2 * charlen r.1.typedCharBuffer + r.1.pending.length =
      2 * charlen s.typedCharBuffer + s.pending.length + inW e ∧
    PendInv r.1 := by
  have hnkb : ¬(e.device = "keyboard" ∧ (e.type = "press" ∨ e.type = "release")) := by
    intro hand
    rw [hdev] at hand
    exact absurd hand.1 (by decide)
  by_cases ht1 : e.type = "click"
  · have hiw : inW e = 1 := by
      unfold inW
      rw [if_pos (Or.inr ⟨hdev, ht1⟩)]
    unfold mouseHandle at h
    rw [if_pos ht1] at h
    rcases hbt : e.button with _ | b
    · rw [hbt] at h; simp at h
    rcases hps : e.pressed with _ | pr
    · rw [hbt, hps] at h; simp at h
    rw [hbt, hps] at h
    dsimp only at h
    cases pr with
    | true =>
      rw [if_pos rfl] at h
      rcases hlk : lookupPend s.pending (PendKey.ms b x y) with _ | stale
      · rw [hlk] at h
        dsimp only at h
        injection h with h1
        subst h1
        constructor
        · dsimp only
          simp only [sumW, List.map_nil, List.sum_nil, List.length_append,
            List.length_cons, List.length_nil]
          rw [hiw]
          omega
        · intro kv hkv
          dsimp only at hkv
          rcases List.mem_append.mp hkv with h1 | h2
          · exact hpi kv h1
          · simp only [List.mem_singleton] at h2
            rw [h2]
            exact hiw
      · rw [hlk] at h
        dsimp only at h
        injection h with h1
        subst h1
        obtain ⟨kk, hmem⟩ := lookupPend_mem hlk
        have hstale : inW stale = 1 := hpi (kk, stale) hmem
        have hlen := erasePend_len hlk
        constructor
        · dsimp only
          simp only [sumW, List.map_cons, List.map_nil, List.sum_cons,
            List.sum_nil, outW, List.length_append, List.length_cons,
            List.length_nil]
          rw [hstale, hiw]
          omega
        · intro kv hkv
          dsimp only at hkv
          rcases List.mem_append.mp hkv with h1 | h2
          · exact hpi kv (erasePend_subset h1)
          · simp only [List.mem_singleton] at h2
            rw [h2]
            exact hiw
    | false =>
      rw [if_neg (by decide)] at h
      rcases hlk : lookupPend s.pending (PendKey.ms b x y) with _ | press
      · rw [hlk] at h
        dsimp only at h
        injection h with h1
        subst h1
        constructor
        · dsimp only
          simp only [sumW, List.map_cons, List.map_nil, List.sum_cons,
            List.sum_nil, outW]
          rw [hiw]
          omega
        · exact hpi
      · rw [hlk] at h
        dsimp only at h
        obtain ⟨kk, hmem⟩ := lookupPend_mem hlk
        have hpress : inW press = 1 := hpi (kk, press) hmem
        have hlen := erasePend_len hlk
        have hpi2 : PendInv
            { s with pending := erasePend s.pending (PendKey.ms b x y) } := by
          intro kv hkv
          exact hpi kv (erasePend_subset hkv)
        split at h
        · injection h with h1
          subst h1
          constructor
          · dsimp only
            simp only [sumW, List.map_cons, List.map_nil, List.sum_cons,
              List.sum_nil, outW]
            rw [hiw]
            omega
          · exact hpi2
        · injection h with h1
          subst h1
          constructor
          · dsimp only
            simp only [sumW, List.map_cons, List.map_nil, List.sum_cons,
              List.sum_nil, outW]
            rw [hpress, hiw]
            omega
          · exact hpi2
  · have hiw : inW e = 0 := by
      unfold inW
      rw [if_neg]
      intro hor
      rcases hor with hand | ⟨_, hc⟩
      · exact hnkb hand
      · exact ht1 hc
    by_cases ht2 : e.type = "move"
    · obtain ⟨g1, g2, _, _, _, _, _, g8⟩ := mouseHandle_move_spec ht2 h
      constructor
      · rw [g1, g2, g8, hiw]
        omega
      · intro kv hkv
        rw [g1] at hkv
        exact hpi kv hkv
    · by_cases ht3 : e.type = "scroll"
      · obtain ⟨g1, g2, _, _, _, _, _, g8⟩ := mouseHandle_scroll_spec ht3 h
        constructor
        · rw [g1, g2, g8, hiw]
          omega
        · intro kv hkv
          rw [g1] at hkv
          exact hpi kv hkv
      · rw [mouseHandle_other ht1 ht2 ht3] at h
        injection h with h1
        subst h1
        constructor
        · dsimp only
          simp only [sumW, List.map_cons, List.map_nil, List.sum_cons,
            List.sum_nil, outW]
          omega
        · exact hpi

theorem processEvent_weight {s : CState} {e : RawEvent} {s2 : CState}
    {out : List OutRec} (h : processEvent s e = .ok (s2, out))
    (hvk : validKey e) (hpi : PendInv s) :
    sumW out + 2 * charlen s2.typedCharBuffer + s2.pending.length =
      2 * charlen s.typedCharBuffer + s.pending.length + inW e ∧
    PendInv s2 := by
  unfold processEvent at h
  rcases hE : entryFlush s e with u | ⟨s4, o1⟩
  · rw [hE] at h; simp at h
  rw [hE] at h
  dsimp only at h
  obtain ⟨a1, a2, a3, a4, a5, a6, a7, a8, a9⟩ := entryFlush_spec hE
  have hpi4 : PendInv s4 := by
    intro kv hkv
    rw [a1] at hkv
    exact hpi kv hkv
  have hlen4 : s4.pending.length = s.pending.length := by rw [a1]
  by_cases hdev : e.device = "keyboard"
  · rw [if_pos hdev] at h
    rcases hkey : e.key with _ | k
    · rw [hkey] at h; simp at h
    rw [hkey] at h
    dsimp only at h
    injection h with h1
    rw [Prod.mk.injEq] at h1
    obtain ⟨h2, h3⟩ := h1
    subst h2 h3
    obtain ⟨w1, p1⟩ := kbHandle_weight s4 e k hkey hvk hdev hpi4
    refine ⟨?_, p1⟩
    rw [sumW_append]
    omega
  · rw [if_neg hdev] at h
    by_cases hdm : e.device = "mouse"
    · rw [if_pos hdm] at h
      rcases hx : e.x with _ | xv
      · rw [hx] at h; simp at h
      rcases hy : e.y with _ | yv
      · rw [hx, hy] at h; simp at h
      rw [hx, hy] at h
      dsimp only at h
      rcases hmh : mouseHandle s4 e xv yv with u | ⟨sr, orr⟩
      · rw [hmh] at h; simp at h
      rw [hmh] at h
      dsimp only at h
      injection h with h1
      rw [Prod.mk.injEq] at h1
      obtain ⟨h2, h3⟩ := h1
      subst h2 h3
      obtain ⟨w1, p1⟩ := mouseHandle_weight hmh hdm hpi4
      dsimp only at w1
      refine ⟨?_, p1⟩
      rw [sumW_append]
      omega
    · rw [if_neg hdm] at h
      injection h with h1
      rw [Prod.mk.injEq] at h1
      obtain ⟨h2, h3⟩ := h1
      subst h2 h3
      refine ⟨?_, hpi4⟩
      rw [sumW_append]
      have hre : sumW [OutRec.raw e] = inW e := by
        simp [sumW, outW]
      rw [hre]
      omega

theorem finalize_weight {s sf : CState} {outf : List OutRec}
    (h : finalize s = .ok (sf, outf)) (hpi : PendInv s) :
    sumW outf = 2 * charlen s.typedCharBuffer + s.pending.length := by
  unfold finalize at h
  rcases hp : flushTypedCharBuffer s with ⟨s1, o1⟩
  rw [hp] at h
  dsimp only at h
  rcases hm : flushMouseMoveBuffer s1 with u | ⟨s2, o2⟩
  · rw [hm] at h; simp at h
  rw [hm] at h
  dsimp only at h
  rcases hc : flushMouseScrollBuffer s2 with u | ⟨s3, o3⟩
  · rw [hc] at h; simp at h
  rw [hc] at h
  dsimp only at h
  injection h with h1
  rw [Prod.mk.injEq] at h1
  obtain ⟨h2, h3⟩ := h1
  subst h2 h3
  have hw := flushTyped_weight s
  have hf := flushTyped_fields s
  rw [hp] at hw hf
  obtain ⟨f1, f2, f3, f4, f5, f6⟩ := hf
  dsimp only at hw f1 f2
  rw [f2] at hw
  have hw2 : sumW o2 = 0 := by
    obtain ⟨_, _, _, _, _, _, f7⟩ := flushMove_frame hm
    rcases f7 with ⟨_, hr⟩ | ⟨_, t, a, b, c, d, du, n, hsh⟩
    · rw [Prod.mk.injEq] at hr
      rw [hr.2]
      rfl
    · rw [show (s2, o2).2 = o2 from rfl] at hsh
      rw [hsh]
      rfl
  have hw3 : sumW o3 = 0 := by
    obtain ⟨_, _, _, _, _, _, f7⟩ := flushScroll_frame hc
    rcases f7 with ⟨_, hr⟩ | ⟨_, t, dx, dy, du, n, hsh⟩
    · rw [Prod.mk.injEq] at hr
      rw [hr.2]
      rfl
    · rw [show (s3, o3).2 = o3 from rfl] at hsh
      rw [hsh]
      rfl
  have hpend3 : s3.pending = s.pending := by
    have m1 := (flushMove_frame hm).1
    have c1 := (flushScroll_frame hc).1
    rw [c1, m1, f1]
  have hw4 : sumW (s3.pending.map (fun kv => OutRec.raw kv.2)) =
      s.pending.length := by
    rw [hpend3]
    exact raws_weight hpi
  rw [sumW_append, sumW_append, sumW_append, hw2, hw3, hw4]
  simp only [charlen, List.map_nil, List.sum_nil] at hw
  simp only [charlen]
  omega

/-- **C1** No event loss: for every finite event stream whose character
keys map to single characters, the full session output (all
`process_event` emissions followed by the `finalize()` emissions)
accounts for every input press and release exactly once: each
pass-through record counts its own raw press/release, each classified
click counts one press and one release, and each `typed_string` counts
`num_chars` press/release pairs; the totals agree. -/
theorem C1_no_event_loss (es : List RawEvent) (out : List OutRec)
    (hvk : ∀ e ∈ es, validKey e) (h : runFin es = .ok out) :
    sumW out = sumInW es := by
  have aux : ∀ (es2 : List RawEvent) (s0 s : CState) (o : List OutRec),
      runFrom s0 es2 = .ok (s, o) → (∀ e ∈ es2, validKey e) → PendInv s0 →
      sumW o + 2 * charlen s.typedCharBuffer + s.pending.length =
        2 * charlen s0.typedCharBuffer + s0.pending.length + sumInW es2 ∧
      PendInv s := by
    intro es2
    induction es2 with
    | nil =>
      intro s0 s o h2 _ hpi
      unfold runFrom at h2
      injection h2 with h3
      rw [Prod.mk.injEq] at h3
      obtain ⟨h4, h5⟩ := h3
      subst h4 h5
      exact ⟨by simp [sumW, sumInW], hpi⟩
    | cons e rest ih =>
      intro s0 s o h2 hv hpi
      obtain ⟨s1, o1, o2, hP, hR, ho⟩ := runFrom_cons h2
      obtain ⟨w1, p1⟩ := processEvent_weight hP (hv e (List.mem_cons_self _ _)) hpi
      obtain ⟨w2, p2⟩ :=
        ih s1 s o2 hR (fun e2 he2 => hv e2 (List.mem_cons_of_mem _ he2)) p1
      subst ho
      refine ⟨?_, p2⟩
      rw [sumW_append]
      have hsi : sumInW (e :: rest) = inW e + sumInW rest := by
        simp [sumInW]
      rw [hsi]
      omega
  unfold runFin at h
  rcases hR : runEvents es with u | ⟨s, out1⟩
  · rw [hR] at h; simp at h
  rw [hR] at h
  dsimp only at h
  rcases hF : finalize s with u | ⟨sf, out2⟩
  · rw [hF] at h; simp at h
  rw [hF] at h
  dsimp only at h
  injection h with h1
  subst h1
  obtain ⟨w1, p1⟩ := aux es initState s out1 hR hvk
    (fun kv hkv => absurd hkv (by simp [initState]))
  have w2 := finalize_weight hF p1
  rw [sumW_append]
  have hinit1 : charlen initState.typedCharBuffer = 0 := rfl
  have hinit2 : initState.pending.length = 0 := rfl
  omega

theorem C1_no_event_loss_witness :
    sumW [OutRec.typedString 0 "a" (1/100) 1] =
      sumInW [kbPress "a" 0, kbRel "a" (1/100)] :=
  C1_no_event_loss [kbPress "a" 0, kbRel "a" (1/100)]
    [OutRec.typedString 0 "a" (1/100) 1]
    (by
      intro e he k hk hc
      simp only [List.mem_cons, List.not_mem_nil, or_false] at he
      rcases he with he | he <;>
        (subst he; simp only [kbPress, kbRel] at hk;
         injection hk with hk2; subst hk2; decide))
    (by decide)

/-! ## No internal exceptions (C8) -/

/-- Well-formed events per the data model: keyboard events carry `key`;
mouse events carry `x`/`y`, plus `button`/`pressed` for clicks and
`dx`/`dy` for scrolls. -/
def wf (e : RawEvent) : Prop :=
  (e.device = "keyboard" → e.key.isSome = true) ∧
  (e.device = "mouse" →
    e.x.isSome = true ∧ e.y.isSome = true ∧
    (e.type = "click" → e.button.isSome = true ∧ e.pressed.isSome = true) ∧
    (e.type = "scroll" → e.dx.isSome = true ∧ e.dy.isSome = true))

/-- Buffered mouse events keep the payload their later flush reads. -/
def BufWF (s : CState) : Prop :=
  (∀ m ∈ s.mouseMoveBuffer, m.x.isSome = true ∧ m.y.isSome = true) ∧
  (∀ c ∈ s.mouseScrollBuffer, c.dx.isSome = true ∧ c.dy.isSome = true)

theorem flushMove_ok {s : CState}
    (h : ∀ m ∈ s.mouseMoveBuffer, m.x.isSome = true ∧ m.y.isSome = true) :
    ∃ r, flushMouseMoveBuffer s = .ok r := by
  unfold flushMouseMoveBuffer
  cases hb : s.mouseMoveBuffer with
  | nil => exact ⟨_, rfl⟩
  | cons first rest =>
    have h1 := h first (by rw [hb]; exact List.mem_cons_self _ _)
    have h2 := h (rest.getLastD first)
      (by rw [hb]; exact List.getLastD_mem_cons _ _)
    obtain ⟨fx, hfx⟩ := Option.isSome_iff_exists.mp h1.1
    obtain ⟨fy, hfy⟩ := Option.isSome_iff_exists.mp h1.2
    obtain ⟨lx, hlx⟩ := Option.isSome_iff_exists.mp h2.1
    obtain ⟨ly, hly⟩ := Option.isSome_iff_exists.mp h2.2
    dsimp only
    rw [hfx, hfy, hlx, hly]
    exact ⟨_, rfl⟩

theorem sumOpt_ok {l : List (Option ℚ)} (h : ∀ o ∈ l, o.isSome = true) :
    ∃ v, sumOpt l = .ok v := by
  induction l with
  | nil => exact ⟨0, rfl⟩
  | cons o rest ih =>
    obtain ⟨v, hv⟩ := Option.isSome_iff_exists.mp (h o (List.mem_cons_self _ _))
    obtain ⟨w, hw⟩ := ih (fun o2 ho2 => h o2 (List.mem_cons_of_mem _ ho2))
    rw [hv]
    unfold sumOpt
    rw [hw]
    exact ⟨_, rfl⟩

theorem flushScroll_ok {s : CState}
    (h : ∀ c ∈ s.mouseScrollBuffer, c.dx.isSome = true ∧ c.dy.isSome = true) :
    ∃ r, flushMouseScrollBuffer s = .ok r := by
  unfold flushMouseScrollBuffer
  cases hb : s.mouseScrollBuffer with
  | nil => exact ⟨_, rfl⟩
  | cons first rest =>
    have hdx : ∀ o ∈ (first :: rest).map (fun ev => ev.dx), o.isSome = true := by
      intro o ho
      obtain ⟨ev, hev, heq⟩ := List.mem_map.mp ho
      rw [← heq]
      exact (h ev (by rw [hb]; exact hev)).1
    have hdy : ∀ o ∈ (first :: rest).map (fun ev => ev.dy), o.isSome = true := by
      intro o ho
      obtain ⟨ev, hev, heq⟩ := List.mem_map.mp ho
      rw [← heq]
      exact (h ev (by rw [hb]; exact hev)).2
    obtain ⟨vx, hvx⟩ := sumOpt_ok hdx
    obtain ⟨vy, hvy⟩ := sumOpt_ok hdy
    dsimp only
    rw [hvx, hvy]
    exact ⟨_, rfl⟩

theorem flushAll_ok {s : CState} (ts : ℚ)
    (hm : ∀ m ∈ s.mouseMoveBuffer, m.x.isSome = true ∧ m.y.isSome = true)
    (hc : ∀ c ∈ s.mouseScrollBuffer, c.dx.isSome = true ∧ c.dy.isSome = true) :
    ∃ r, flushAllBuffers s ts = .ok r := by
  unfold flushAllBuffers
  rcases hp : (if s.typedCharBuffer ≠ [] ∧
      ts - s.lastTypedCharTs > TYPING_MAX_INTERKEY_DELTA then
      flushTypedCharBuffer s else (s, [])) with ⟨s1, o1⟩
  obtain ⟨a1, a2, a3, a4, a5, a6, a7, a8, a9⟩ := stageTyped_spec _ s s1 o1 hp
  have hm1 : ∀ m ∈ s1.mouseMoveBuffer, m.x.isSome = true ∧ m.y.isSome = true := by
    rw [a2]; exact hm
  have hc1 : ∀ c ∈ s1.mouseScrollBuffer, c.dx.isSome = true ∧ c.dy.isSome = true := by
    rw [a4]; exact hc
  dsimp only
  have h2 : ∃ r2, (if s1.mouseMoveBuffer ≠ [] ∧
      ts - s1.lastMouseMoveTs > MOUSE_SEQUENCE_MAX_DELTA then
      flushMouseMoveBuffer s1 else .ok (s1, [])) = .ok r2 := by
    by_cases hcc : (s1.mouseMoveBuffer ≠ [] ∧
        ts - s1.lastMouseMoveTs > MOUSE_SEQUENCE_MAX_DELTA)
    · rw [if_pos hcc]; exact flushMove_ok hm1
    · rw [if_neg hcc]; exact ⟨_, rfl⟩
  obtain ⟨⟨s2, o2⟩, h2⟩ := h2
  rw [h2]
  dsimp only
  obtain ⟨b1, b2, b3, b4, b5, b6, b7, b8⟩ := stageMove_spec _ s1 s2 o2 h2
  have hc2 : ∀ c ∈ s2.mouseScrollBuffer, c.dx.isSome = true ∧ c.dy.isSome = true := by
    rw [b4]; exact hc1
  have h3 : ∃ r3, (if s2.mouseScrollBuffer ≠ [] ∧
      ts - s2.lastMouseScrollTs > MOUSE_SEQUENCE_MAX_DELTA then
      flushMouseScrollBuffer s2 else .ok (s2, [])) = .ok r3 := by
    by_cases hcc : (s2.mouseScrollBuffer ≠ [] ∧
        ts - s2.lastMouseScrollTs > MOUSE_SEQUENCE_MAX_DELTA)
    · rw [if_pos hcc]; exact flushScroll_ok hc2
    · rw [if_neg hcc]; exact ⟨_, rfl⟩
  obtain ⟨⟨s3, o3⟩, h3⟩ := h3
  rw [h3]
  exact ⟨_, rfl⟩

theorem entryFlush_ok {s : CState} (e : RawEvent) (hbuf : BufWF s) :
    ∃ r, entryFlush s e = .ok r := by
  obtain ⟨hm, hc⟩ := hbuf
  unfold entryFlush
  rcases hp : (if e.device ≠ "keyboard" ∨ is_char_key (e.key.getD "") = false then
      flushTypedCharBuffer s else (s, [])) with ⟨s1, o1⟩
  obtain ⟨a1, a2, a3, a4, a5, a6, a7, a8, a9⟩ := stageTyped_spec _ s s1 o1 hp
  have hm1 : ∀ m ∈ s1.mouseMoveBuffer, m.x.isSome = true ∧ m.y.isSome = true := by
    rw [a2]; exact hm
  have hc1 : ∀ c ∈ s1.mouseScrollBuffer, c.dx.isSome = true ∧ c.dy.isSome = true := by
    rw [a4]; exact hc
  dsimp only
  have h2 : ∃ r2, (if e.device ≠ "mouse" ∨ e.type ≠ "move" then
      flushMouseMoveBuffer s1 else .ok (s1, [])) = .ok r2 := by
    by_cases hcc : (e.device ≠ "mouse" ∨ e.type ≠ "move")
    · rw [if_pos hcc]; exact flushMove_ok hm1
    · rw [if_neg hcc]; exact ⟨_, rfl⟩
  obtain ⟨⟨s2, o2⟩, h2⟩ := h2
  rw [h2]
  dsimp only
  obtain ⟨b1, b2, b3, b4, b5, b6, b7, b8⟩ := stageMove_spec _ s1 s2 o2 h2
  have hm2 : ∀ m ∈ s2.mouseMoveBuffer, m.x.isSome = true ∧ m.y.isSome = true := by
    rcases b6 with ⟨e1, _⟩ | e1
    · rw [e1]; exact hm1
    · rw [e1]; intro m hm3; simp at hm3
  have hc2 : ∀ c ∈ s2.mouseScrollBuffer, c.dx.isSome = true ∧ c.dy.isSome = true := by
    rw [b4]; exact hc1
  have h3 : ∃ r3, (if e.device ≠ "mouse" ∨ e.type ≠ "scroll" then
      flushMouseScrollBuffer s2 else .ok (s2, [])) = .ok r3 := by
    by_cases hcc : (e.device ≠ "mouse" ∨ e.type ≠ "scroll")
    · rw [if_pos hcc]; exact flushScroll_ok hc2
    · rw [if_neg hcc]; exact ⟨_, rfl⟩
  obtain ⟨⟨s3, o3⟩, h3⟩ := h3
  rw [h3]
  dsimp only
  obtain ⟨c1, c2, c3, c4, c5, c6, c7, c8⟩ := stageScroll_spec _ s2 s3 o3 h3
  have hm3 : ∀ m ∈ s3.mouseMoveBuffer, m.x.isSome = true ∧ m.y.isSome = true := by
    rw [c4]; exact hm2
  have hc3 : ∀ c ∈ s3.mouseScrollBuffer, c.dx.isSome = true ∧ c.dy.isSome = true := by
    rcases c6 with ⟨e1, _⟩ | e1
    · rw [e1]; exact hc2
    · rw [e1]; intro m hm4; simp at hm4
  obtain ⟨r4, h4⟩ := flushAll_ok e.ts hm3 hc3
  rcases r4 with ⟨s4, o4⟩
  rw [h4]
  exact ⟨_, rfl⟩

theorem mouseHandle_ok {s : CState} {e : RawEvent} (x y : ℚ)
    (hclick : e.type = "click" →
      e.button.isSome = true ∧ e.pressed.isSome = true)
    (hbuf : BufWF s) :
    ∃ r, mouseHandle s e x y = .ok r := by
  obtain ⟨hm, hc⟩ := hbuf
  unfold mouseHandle
  by_cases ht1 : e.type = "click"
  · rw [if_pos ht1]
    obtain ⟨hb, hp⟩ := hclick ht1
    obtain ⟨b, hb2⟩ := Option.isSome_iff_exists.mp hb
    obtain ⟨pr, hp2⟩ := Option.isSome_iff_exists.mp hp
    rw [hb2, hp2]
    dsimp only
    repeat' split
    all_goals exact ⟨_, rfl⟩
  · rw [if_neg ht1]
    by_cases ht2 : e.type = "move"
    · rw [if_pos ht2]
      by_cases hcc : (s.mouseMoveBuffer = [] ∨
          e.ts - s.lastMouseMoveTs ≤ MOUSE_SEQUENCE_MAX_DELTA)
      · rw [if_pos hcc]; exact ⟨_, rfl⟩
      · rw [if_neg hcc]
        obtain ⟨⟨s2, o⟩, h2⟩ := flushMove_ok hm
        rw [h2]
        exact ⟨_, rfl⟩
    · rw [if_neg ht2]
      by_cases ht3 : e.type = "scroll"
      · rw [if_pos ht3]
        by_cases hcc : (s.mouseScrollBuffer = [] ∨
            e.ts - s.lastMouseScrollTs ≤ MOUSE_SEQUENCE_MAX_DELTA)
        · rw [if_pos hcc]; exact ⟨_, rfl⟩
        · rw [if_neg hcc]
          obtain ⟨⟨s2, o⟩, h2⟩ := flushScroll_ok hc
          rw [h2]
          exact ⟨_, rfl⟩
      · rw [if_neg ht3]; exact ⟨_, rfl⟩

theorem processEvent_ok {s : CState} {e : RawEvent} (hwf : wf e)
    (hbuf : BufWF s) :
    ∃ s2 out, processEvent s e = .ok (s2, out) ∧ BufWF s2 := by
  obtain ⟨r, hE⟩ := entryFlush_ok e hbuf
  rcases r with ⟨s4, o1⟩
  obtain ⟨a1, a2, a3, a4, a5, a6, a7, a8, a9⟩ := entryFlush_spec hE
  have hbuf4 : BufWF s4 := by
    constructor
    · rcases a3 with ⟨e1, _⟩ | e1
      · rw [e1]; exact hbuf.1
      · rw [e1]; intro m hm2; simp at hm2
    · rcases a4 with ⟨e1, _⟩ | e1
      · rw [e1]; exact hbuf.2
      · rw [e1]; intro m hm2; simp at hm2
  unfold processEvent
  rw [hE]
  dsimp only
  by_cases hdev : e.device = "keyboard"
  · rw [if_pos hdev]
    obtain ⟨k, hk⟩ := Option.isSome_iff_exists.mp (hwf.1 hdev)
    rw [hk]
    dsimp only
    refine ⟨_, _, rfl, ?_⟩
    obtain ⟨g1, g2, g3, g4⟩ := kbHandle_frame s4 e k
    exact ⟨by rw [g1]; exact hbuf4.1, by rw [g3]; exact hbuf4.2⟩
  · rw [if_neg hdev]
    by_cases hdm : e.device = "mouse"
    · rw [if_pos hdm]
      obtain ⟨hx, hy, hcl, hscr⟩ := hwf.2 hdm
      obtain ⟨xv, hx2⟩ := Option.isSome_iff_exists.mp hx
      obtain ⟨yv, hy2⟩ := Option.isSome_iff_exists.mp hy
      rw [hx2, hy2]
      dsimp only
      obtain ⟨⟨sr, orr⟩, hmh⟩ := mouseHandle_ok xv yv hcl hbuf4
      rw [hmh]
      dsimp only
      refine ⟨_, _, rfl, ?_⟩
      by_cases ht1 : e.type = "click"
      · obtain ⟨_, _, g3, _, g5, _⟩ := mouseHandle_click_frame ht1 hmh
        exact ⟨by rw [g3]; exact hbuf4.1, by rw [g5]; exact hbuf4.2⟩
      · by_cases ht2 : e.type = "move"
        · obtain ⟨_, _, _, g4, _, ⟨pre, hpre, hpre2⟩, _, _⟩ :=
            mouseHandle_move_spec ht2 hmh
          constructor
          · rw [hpre]
            intro m hm2
            rcases List.mem_append.mp hm2 with h1 | h2
            · rcases hpre2 with hp2 | hp2
              · rw [hp2] at h1; exact hbuf4.1 m h1
              · rw [hp2] at h1; simp at h1
            · simp only [List.mem_singleton] at h2
              subst h2
              exact ⟨hx, hy⟩
          · rw [g4]; exact hbuf4.2
        · by_cases ht3 : e.type = "scroll"
          · obtain ⟨_, _, _, g4, _, ⟨pre, hpre, hpre2⟩, _, _⟩ :=
              mouseHandle_scroll_spec ht3 hmh
            constructor
            · rw [g4]; exact hbuf4.1
            · rw [hpre]
              intro m hm2
              rcases List.mem_append.mp hm2 with h1 | h2
              · rcases hpre2 with hp2 | hp2
                · rw [hp2] at h1; exact hbuf4.2 m h1
                · rw [hp2] at h1; simp at h1
              · simp only [List.mem_singleton] at h2
                subst h2
                exact hscr ht3
          · rw [mouseHandle_other ht1 ht2 ht3] at hmh
            injection hmh with h1
            rw [Prod.mk.injEq] at h1
            obtain ⟨hA, hB⟩ := h1
            rw [← hA]
            exact hbuf4
    · rw [if_neg hdm]
      exact ⟨_, _, rfl, hbuf4⟩

theorem finalize_ok {s : CState} (hbuf : BufWF s) :
    ∃ r, finalize s = .ok r := by
  unfold finalize
  rcases hp : flushTypedCharBuffer s with ⟨s1, o1⟩
  obtain ⟨f1, f2, f3, f4, f5, f6⟩ := flushTyped_fields s
  rw [hp] at f1 f2 f3 f4 f5 f6
  dsimp only at f1 f2 f3 f4 f5 f6
  dsimp only
  have hm1 : ∀ m ∈ s1.mouseMoveBuffer, m.x.isSome = true ∧ m.y.isSome = true := by
    rw [f3]; exact hbuf.1
  obtain ⟨⟨s2, o2⟩, h2⟩ := flushMove_ok hm1
  rw [h2]
  dsimp only
  have hc2 : ∀ c ∈ s2.mouseScrollBuffer, c.dx.isSome = true ∧ c.dy.isSome = true := by
    rw [(flushMove_frame h2).2.2.2.1, f5]
    exact hbuf.2
  obtain ⟨⟨s3, o3⟩, h3⟩ := flushScroll_ok hc2
  rw [h3]
  exact ⟨_, rfl⟩

/-- **C8** No internal exceptions: feeding any stream of well-formed
events (per the data model) through `process_event` and then
`finalize()` never hits a missing-field access — the whole session
evaluates to a result instead of an error. Malformed pairings
(duplicate press, unmatched release, slow pair) are covered: they
produce pass-through emissions, not failures. -/
theorem C8_no_internal_exceptions (es : List RawEvent)
    (hwf : ∀ e ∈ es, wf e) : ∃ out, runFin es = .ok out := by
  have aux : ∀ (es2 : List RawEvent) (s0 : CState), BufWF s0 →
      (∀ e ∈ es2, wf e) →
      ∃ s out, runFrom s0 es2 = .ok (s, out) ∧ BufWF s := by
    intro es2
    induction es2 with
    | nil => intro s0 hb _; exact ⟨s0, [], rfl, hb⟩
    | cons e rest ih =>
      intro s0 hb hv
      obtain ⟨s1, o1, hP, hb1⟩ :=
        processEvent_ok (hv e (List.mem_cons_self _ _)) hb
      obtain ⟨s, o2, hR, hbs⟩ :=
        ih s1 hb1 (fun e2 he2 => hv e2 (List.mem_cons_of_mem _ he2))
      refine ⟨s, o1 ++ o2, ?_, hbs⟩
      unfold runFrom
      rw [hP]
      dsimp only
      rw [hR]
  have hinit : BufWF initState := by
    constructor
    · intro m hm2; simp [initState] at hm2
    · intro m hm2; simp [initState] at hm2
  obtain ⟨s, out1, hR, hbs⟩ := aux es initState hinit hwf
  obtain ⟨⟨sf, out2⟩, hF⟩ := finalize_ok hbs
  refine ⟨out1 ++ out2, ?_⟩
  unfold runFin runEvents
  rw [hR]
  dsimp only
  rw [hF]

def mouseMoveW : RawEvent :=
  { ts := 1/2, device := "mouse", type := "move", x := some 3, y := some 4 }

theorem C8_no_internal_exceptions_witness :
    ∃ out, runFin [kbPress "a" 0, mouseMoveW, kbRel "a" 1] = .ok out :=
  C8_no_internal_exceptions [kbPress "a" 0, mouseMoveW, kbRel "a" 1]
    (by
      intro e he
      simp only [List.mem_cons, List.not_mem_nil, or_false] at he
      rcases he with he | he | he <;> (subst he; exact ⟨by decide, by decide⟩))
